import Mathlib

/-!
Shallow embedding of the retrieval-augmented analysis and learning-feedback
pipeline of the compliance-advisor application (the React `App` component and
its helpers), together with proofs about the embedded operations.

Character-level string operations mirror the JavaScript semantics of the
source: `\s` and `String.prototype.trim` are modelled on the ASCII whitespace
characters, `String.prototype.includes` as contiguous-substring search, and
the specific regular expressions of the source are implemented as dedicated
deterministic scanners (each regex in the source has disjoint character
classes around its quantifiers, so greedy/lazy matching is deterministic and
the scanners below reproduce it exactly).
-/

namespace ComplianceAdvisor

/-- ASCII whitespace, as matched by the JavaScript `\s` regex class and
trimmed by `String.prototype.trim`. -/
def jsWsChar (c : Char) : Bool :=
  c = ' ' || c = '\t' || c = '\n' || c = '\r' || c = '\x0b' || c = '\x0c'

/-- `String.prototype.trim()` on the character-list representation. -/
def jsTrimList (l : List Char) : List Char :=
  ((l.dropWhile jsWsChar).reverse.dropWhile jsWsChar).reverse

/-- `String.prototype.trim()`. -/
def jsTrim (s : String) : String := String.mk (jsTrimList s.toList)

/-- Whether `pat` occurs as a contiguous substring of the list
(JS `String.prototype.includes`). -/
def containsSub (pat : List Char) : List Char → Bool
  | [] => pat.isEmpty
  | c :: rest => pat.isPrefixOf (c :: rest) || containsSub pat rest

/-- JS `s.includes(sub)`. -/
def strIncludes (s sub : String) : Bool := containsSub sub.toList s.toList

/-- JS `String.prototype.toLowerCase` (ASCII behaviour). -/
def strLower (s : String) : String := String.mk (s.toList.map Char.toLower)

/-- The JS regex word class `\w` = `[A-Za-z0-9_]`. -/
def wordChar (c : Char) : Bool :=
  ('a' ≤ c && c ≤ 'z') || ('A' ≤ c && c ≤ 'Z') || ('0' ≤ c && c ≤ '9') || c = '_'

/-- First character of a JS identifier token `[a-zA-Z_]`. -/
def identStartChar (c : Char) : Bool :=
  ('a' ≤ c && c ≤ 'z') || ('A' ≤ c && c ≤ 'Z') || c = '_'

/-- Truthiness of an optional JS string: `undefined` and `""` are falsy. -/
def optTruthy : Option String → Bool
  | none => false
  | some s => s ≠ ""

/-- JS `a || b` for an optional string against a string default
(`undefined` and `""` both fall through to the default). -/
def strOrDefault (o : Option String) (d : String) : String :=
  match o with
  | none => d
  | some s => if s = "" then d else s

/-- JS `s.substring(0, n)` followed by an ellipsis when the string was longer
(the truncation idiom of `extractLearningsFromFeedback`). -/
def truncateWithEllipsis (s : String) (n : Nat) : String :=
  s.take n ++ (if n < s.length then "..." else "")

/-- Join a list of strings with a separator (JS `Array.prototype.join`). -/
def joinSep (sep : String) : List String → String
  | [] => ""
  | [s] => s
  | s :: rest => s ++ sep ++ joinSep sep rest

/-! ## Data model (`types.ts`) -/

/-- `FetchState` enum. -/
inductive FetchState where
  | idle
  | loading
  | success
  | error
deriving DecidableEq, Repr

/-- `UserFeedback`: optional TS fields are `Option`s; `lastUpdated` is the ISO
timestamp string. -/
structure UserFeedback where
  status : Option String
  notes : Option String
  lastUpdated : String
  finalAdoptedText : Option String
deriving DecidableEq, Repr

/-- `AustracUpdate` (regulatory input). `isProcessedForRag` defaults to
`false` when absent. The `summary` field is not declared in `types.ts` but is
attached dynamically by `generateGapReview` (`{ ...update, summary: ... }`),
so it is carried here as an `Option`. Date strings are kept verbatim. -/
structure AustracUpdate where
  id : String
  title : String
  rawContent : String
  fileType : String
  dateAdded : String
  isProcessedForRag : Bool
  summary : Option String
deriving DecidableEq, Repr

/-- `CompanyDocument`. -/
structure CompanyDocument where
  id : String
  name : String
  textContent : String
  fileType : String
  lastModified : Nat
  size : Nat
  isProcessedForRag : Bool
deriving DecidableEq, Repr

/-- `SuggestedChange`. `priority` is kept as a raw string because the value
originates from untrusted generator JSON and is only coerced into
High/Medium/Low during post-processing. -/
structure SuggestedChange where
  id : String
  document_section : String
  current_status_summary : String
  austrac_relevance : String
  suggested_modification : String
  priority : String
  userFeedback : Option UserFeedback
  source_document_name : Option String
deriving DecidableEq, Repr

/-- `ActionPlanItem`. -/
structure ActionPlanItem where
  id : String
  task : String
  responsible : String
  timeline : String
  priority_level : String
  userFeedback : Option UserFeedback
deriving DecidableEq, Repr

/-- `ChallengeAnalysisResult`. `groupedSuggestions` is the derived
`Record<string, SuggestedChange[]>` index, modelled as an insertion-ordered
association list (JS objects with string keys preserve insertion order). -/
structure ChallengeAnalysisResult where
  suggested_changes : List SuggestedChange
  action_plan : List ActionPlanItem
  groupedSuggestions : Option (List (String × List SuggestedChange))
deriving DecidableEq, Repr

/-- `DeepDiveAnalysisResult`. -/
structure DeepDiveAnalysisResult where
  documentTitleAnalyzed : String
  overallSummary : String
  keyThemesAndTopics : List String
  suggested_changes : List SuggestedChange
  action_plan : List ActionPlanItem
  additionalObservations : Option String
  referencedRegulatoryInputs : Option (List String)
deriving DecidableEq, Repr

/-- `GroundingMetadata` (only stored and cleared by the operations modelled
here, so the web/retrieval chunk detail is reduced to the search query). -/
structure GroundingMetadata where
  searchQuery : Option String
deriving DecidableEq, Repr

/-- `Pick<AustracUpdate, 'id' | 'title' | 'type' | 'dateAdded'>`. -/
structure AustracSnapshot where
  id : String
  title : String
  fileType : String
  dateAdded : String
deriving DecidableEq, Repr

/-- `Pick<CompanyDocument, 'id' | 'name' | 'type' | 'lastModified' | 'size'>`. -/
structure CompanyDocSnapshot where
  id : String
  name : String
  fileType : String
  lastModified : Nat
  size : Nat
deriving DecidableEq, Repr

/-- The two analysis types of `SavedAnalysis.type`. -/
inductive AnalysisType where
  | challenge
  | deepDive
deriving DecidableEq, Repr

/-- `SavedAnalysis`. The `timestamp` ISO string is modelled by its epoch
value (`new Date(ts).getTime()`), which is what every comparison and sort in
the source computes from it. -/
structure SavedAnalysis where
  id : String
  name : String
  timestamp : Nat
  analysisType : AnalysisType
  challengeAnalysisResult : Option ChallengeAnalysisResult
  austracInputsUsedSnapshot : Option (List AustracSnapshot)
  companyDocumentsUsedSnapshot : Option (List CompanyDocSnapshot)
  summarizedAustracUpdatesSnapshot : Option (List AustracUpdate)
  learningsAppliedToThisAnalysis : Option (List String)
  selectedDocumentSnapshot : Option CompanyDocSnapshot
  deepDiveAnalysisResult : Option DeepDiveAnalysisResult
  groundingMetadata : Option GroundingMetadata
  userPrompt : Option String
  systemPrompt : Option String
deriving DecidableEq, Repr

/-- `DocumentChunk` returned by the (simulated) Vertex AI retriever.
`documentType` is `"company"` or `"austrac"`. -/
structure DocumentChunk where
  id : String
  documentId : String
  documentName : String
  documentType : String
  text : String
  keywords : List String
  charCount : Nat
deriving DecidableEq, Repr

/-- `[...analyses].sort((a, b) => new Date(b.timestamp).getTime() - new
Date(a.timestamp).getTime())`: stable sort, newest first. -/
def sortByTimestampDesc (analyses : List SavedAnalysis) : List SavedAnalysis :=
  analyses.insertionSort (fun a b => b.timestamp ≤ a.timestamp)

/-! ## Feedback Learning Extractor (`extractLearningsFromFeedback`) -/

/-- `analysis.type === 'challenge' ? 'Gap Review' : 'Deep Dive'`. -/
def analysisTypeLabel : AnalysisType → String
  | .challenge => "Gap Review"
  | .deepDive => "Deep Dive"

/-- The `resultSource` scanned by `extractLearningsFromFeedback`:
`analysis.type === 'challenge' ? analysis.challengeAnalysisResult :
analysis.deepDiveAnalysisResult`, then `resultSource?.suggested_changes`
(empty when the result is absent). -/
def scannedChanges (a : SavedAnalysis) : List SuggestedChange :=
  match a.analysisType with
  | .challenge =>
    match a.challengeAnalysisResult with
    | some r => r.suggested_changes
    | none => []
  | .deepDive =>
    match a.deepDiveAnalysisResult with
    | some r => r.suggested_changes
    | none => []

/-- The qualification guard of `extractLearningsFromFeedback`:
`status && (status === "Actioned" || finalAdoptedText ||
(status === "Not Applicable" && notes && notes.trim() !== ''))`. -/
def qualifiesAsLearning (fb : UserFeedback) : Bool :=
  optTruthy fb.status &&
    (fb.status == some "Actioned" || optTruthy fb.finalAdoptedText ||
      (fb.status == some "Not Applicable" && optTruthy fb.notes &&
        jsTrim (fb.notes.getD "") != ""))

/-- JS template interpolation of an optional string (`undefined` prints as
`"undefined"`; never reached for fields guarded truthy). -/
def jsInterpolate : Option String → String
  | some s => s
  | none => "undefined"

/-- The `learningPoint` string built for one qualifying feedback item. -/
def formatLearning (a : SavedAnalysis) (c : SuggestedChange) (fb : UserFeedback) : String :=
  "Feedback for suggestion regarding '" ++ c.document_section ++ "' (" ++
    analysisTypeLabel a.analysisType ++ ": " ++ a.name.take 20 ++
    "...): User status set to '" ++ jsInterpolate fb.status ++ "'." ++
  (if optTruthy fb.notes then
    " Note: \"" ++ truncateWithEllipsis (fb.notes.getD "") 100 ++ "\"." else "") ++
  (if optTruthy fb.finalAdoptedText then
    " Adopted Text: \"" ++ truncateWithEllipsis (fb.finalAdoptedText.getD "") 750 ++ "\"." else "")

/-- `maxLearnings !== undefined && learnings.length >= maxLearnings`. -/
def capReached (maxL : Option Nat) (acc : List String) : Bool :=
  match maxL with
  | none => false
  | some m => m ≤ acc.length

/-- Inner loop of `extractLearningsFromFeedback` over one analysis's
suggested changes (the cap check sits at the top of each iteration). -/
def extractFromChanges (a : SavedAnalysis) (maxL : Option Nat) :
    List SuggestedChange → List String → List String
  | [], acc => acc
  | c :: cs, acc =>
    if capReached maxL acc then acc
    else
      match c.userFeedback with
      | some fb =>
        if qualifiesAsLearning fb then
          extractFromChanges a maxL cs (acc ++ [formatLearning a c fb])
        else extractFromChanges a maxL cs acc
      | none => extractFromChanges a maxL cs acc

/-- Outer loop of `extractLearningsFromFeedback` over the sorted analyses
(the cap check runs again after each analysis). -/
def extractFromAnalyses (maxL : Option Nat) :
    List SavedAnalysis → List String → List String
  | [], acc => acc
  | a :: rest, acc =>
    let acc' := extractFromChanges a maxL (scannedChanges a) acc
    if capReached maxL acc' then acc'
    else extractFromAnalyses maxL rest acc'

/-- `extractLearningsFromFeedback(analyses, maxLearnings?)`. -/
def extractLearningsFromFeedback (analyses : List SavedAnalysis)
    (maxLearnings : Option Nat) : List String :=
  extractFromAnalyses maxLearnings (sortByTimestampDesc analyses) []

/-! ## Prompt learning selection
(`selectContextualLearningsForChallengePrompt`) -/

/-- Lazy `(.*?)'` content scan: the characters up to the first `'`, failing
at a newline or at the end of input (`.` does not match a newline). -/
def takeToQuote : List Char → Option (List Char)
  | [] => none
  | c :: rest =>
    if c = '\'' then some []
    else if c = '\n' then none
    else (takeToQuote rest).map (fun t => c :: t)

/-- First match of `/regarding '(.*?)'/`, returning capture group 1. A
failed attempt (no closing quote on the line) resumes the scan one character
later, as the JS regex engine does. -/
def findRegardingFragment : List Char → Option String
  | [] => none
  | l@(_ :: rest) =>
    if ("regarding '".toList).isPrefixOf l then
      match takeToQuote (l.drop ("regarding '".toList.length)) with
      | some frag => some (String.mk frag)
      | none => findRegardingFragment rest
    else findRegardingFragment rest

/-- Greedy `(.*)'\.`: position of the last `'` directly followed by `.`,
scanning only up to the first newline. -/
def lastQuoteDotGo : List Char → Nat → Option Nat → Option Nat
  | [], _, best => best
  | c :: rest, i, best =>
    if c = '\n' then best
    else lastQuoteDotGo rest (i + 1)
      (if c = '\'' && rest.head? == some '.' then some i else best)

/-- Entry point for `lastQuoteDotGo`. -/
def lastQuoteDot (l : List Char) : Option Nat := lastQuoteDotGo l 0 none

/-- Greedy `.*"`: position of the last `"` before the first newline. -/
def lastQuoteGo : List Char → Nat → Option Nat → Option Nat
  | [], _, best => best
  | c :: rest, i, best =>
    if c = '\n' then best
    else lastQuoteGo rest (i + 1) (if c = '"' then some i else best)

/-- Entry point for `lastQuoteGo`. -/
def lastQuote (l : List Char) : Option Nat := lastQuoteGo l 0 none

/-- One optional group `( <lit>.*")?` of the core-content regex: when the
literal prefix matches and a closing `"` exists on the line, the group
matches greedily; otherwise it matches empty. Returns the matched group text
and the remaining input. -/
def optQuotedGroup (lit : List Char) (r : List Char) : List Char × List Char :=
  if lit.isPrefixOf r then
    let t := r.drop lit.length
    match lastQuote t with
    | some j => (lit ++ t.take j ++ ['"'], t.drop (j + 1))
    | none => ([], r)
  else ([], r)

/-- First match of
`/: User status set to '(.*)'\.( Note: ".*")?( Adopted Text: ".*")?/`,
returning `match[1] + (match[2] || '') + (match[3] || '')`. After `'.` the
two optional groups can always degrade to empty, so the greedy choices below
are exactly the JS backtracking outcome. -/
def coreContentGo : List Char → Option String
  | [] => none
  | l@(_ :: rest) =>
    if (": User status set to '".toList).isPrefixOf l then
      let tail := l.drop (": User status set to '".toList.length)
      match lastQuoteDot tail with
      | some j =>
        let g1 := tail.take j
        let r1 := tail.drop (j + 2)
        let p2 := optQuotedGroup (" Note: \"".toList) r1
        let p3 := optQuotedGroup (" Adopted Text: \"".toList) p2.2
        some (String.mk (g1 ++ p2.1 ++ p3.1))
      | none => coreContentGo rest
    else coreContentGo rest

/-- `coreLearningContentMatch ? match[1]+(match[2]||'')+(match[3]||'') :
learningString`. -/
def coreLearningContent (s : String) : String :=
  match coreContentGo s.toList with
  | some core => core
  | none => s

/-- Inner document loop of `selectContextualLearningsForChallengePrompt`:
`true` exactly when the learning gets pushed — some targeted company
document's lower-cased name is contained in the fragment
(`docSectionFromLearning.includes(companyDoc.name.toLowerCase())`) and the
dedup key is new; a hit on an already-added key continues with the remaining
documents, as the source's loop does. -/
def learningMatchesDocs (fragLower coreKey : String) (added : List String) :
    List String → Bool
  | [] => false
  | name :: names =>
    if strIncludes fragLower (strLower name) then
      if added.contains coreKey then learningMatchesDocs fragLower coreKey added names
      else true
    else learningMatchesDocs fragLower coreKey added names

/-- Main loop of `selectContextualLearningsForChallengePrompt`: `sel` is
`contextualLearnings`, `added` is `addedLearningContents`. -/
def selectLearningsGo (docNames : List String) (maxL : Nat) :
    List String → List String → List String → List String
  | [], sel, _ => sel
  | l :: ls, sel, added =>
    if maxL ≤ sel.length then sel
    else
      match findRegardingFragment l.toList with
      | some frag =>
        if frag != "" then
          let fragLower := strLower frag
          let key := fragLower ++ coreLearningContent l
          if learningMatchesDocs fragLower key added docNames then
            selectLearningsGo docNames maxL ls (sel ++ [l]) (added ++ [key])
          else selectLearningsGo docNames maxL ls sel added
        else selectLearningsGo docNames maxL ls sel added
      | none => selectLearningsGo docNames maxL ls sel added

/-- `selectContextualLearningsForChallengePrompt(allPotentialLearnings,
currentCompanyDocsForChallenge, maxLearningsForPrompt)`; the company
documents are passed by name, the only field the function reads. -/
def selectContextualLearningsForChallengePrompt
    (allPotentialLearnings : List String) (companyDocNames : List String)
    (maxLearningsForPrompt : Nat) : List String :=
  if companyDocNames.length = 0 || allPotentialLearnings.length = 0 then []
  else selectLearningsGo companyDocNames maxLearningsForPrompt allPotentialLearnings [] []

/-! ## Analysis store mutations -/

/-- Shallow-merge patch (`Partial<ChallengeAnalysisResult> |
Partial<DeepDiveAnalysisResult>`): a JS spread merges by key, so the patch
carries one optional slot per key of either result shape. -/
structure ResultPatch where
  suggested_changes : Option (List SuggestedChange)
  action_plan : Option (List ActionPlanItem)
  groupedSuggestions : Option (Option (List (String × List SuggestedChange)))
  documentTitleAnalyzed : Option String
  overallSummary : Option String
  keyThemesAndTopics : Option (List String)
  additionalObservations : Option (Option String)
  referencedRegulatoryInputs : Option (Option (List String))
deriving DecidableEq, Repr

/-- `{ ...sa.challengeAnalysisResult, ...updatedAnalysisData }`. -/
def mergeChallengeResult (old : ChallengeAnalysisResult) (p : ResultPatch) :
    ChallengeAnalysisResult :=
  { suggested_changes := p.suggested_changes.getD old.suggested_changes
    action_plan := p.action_plan.getD old.action_plan
    groupedSuggestions := p.groupedSuggestions.getD old.groupedSuggestions }

/-- `{ ...sa.deepDiveAnalysisResult, ...updatedAnalysisData }`. -/
def mergeDeepDiveResult (old : DeepDiveAnalysisResult) (p : ResultPatch) :
    DeepDiveAnalysisResult :=
  { documentTitleAnalyzed := p.documentTitleAnalyzed.getD old.documentTitleAnalyzed
    overallSummary := p.overallSummary.getD old.overallSummary
    keyThemesAndTopics := p.keyThemesAndTopics.getD old.keyThemesAndTopics
    suggested_changes := p.suggested_changes.getD old.suggested_changes
    action_plan := p.action_plan.getD old.action_plan
    additionalObservations := p.additionalObservations.getD old.additionalObservations
    referencedRegulatoryInputs := p.referencedRegulatoryInputs.getD old.referencedRegulatoryInputs }

/-- The per-analysis branch body of `updateFeedbackInSavedAnalyses` (merge
into the type-matching result and refresh the timestamp; an analysis whose
matching result is absent is returned unchanged). -/
def mergeAnalysisFeedback (sa : SavedAnalysis) (p : ResultPatch) (now : Nat) :
    SavedAnalysis :=
  match sa.analysisType with
  | .challenge =>
    match sa.challengeAnalysisResult with
    | some old =>
      { sa with challengeAnalysisResult := some (mergeChallengeResult old p),
                timestamp := now }
    | none => sa
  | .deepDive =>
    match sa.deepDiveAnalysisResult with
    | some old =>
      { sa with deepDiveAnalysisResult := some (mergeDeepDiveResult old p),
                timestamp := now }
    | none => sa

/-- `updateFeedbackInSavedAnalyses(analysisIdToUpdate, updatedAnalysisData)`:
map the merge over the store, then re-sort newest first; `now` is the
freshly taken `new Date().toISOString()`. -/
def updateFeedbackInSavedAnalyses (analyses : List SavedAnalysis)
    (analysisIdToUpdate : String) (p : ResultPatch) (now : Nat) :
    List SavedAnalysis :=
  sortByTimestampDesc (analyses.map (fun sa =>
    if sa.id = analysisIdToUpdate then mergeAnalysisFeedback sa p now else sa))

/-- `savedAnalyses.find(sa => sa.id === id)`. -/
def getAnalysis (analyses : List SavedAnalysis) (id : String) :
    Option SavedAnalysis :=
  analyses.find? (fun sa => sa.id == id)

/-- The `currentInputsForChallenge` pair. -/
structure InputsSnapshot where
  companyDocs : List CompanyDocSnapshot
  austracContent : List AustracSnapshot
deriving DecidableEq, Repr

/-- The slice of the `App` component state read and written by the
operations modelled here. -/
structure AppState where
  userAustracContent : List AustracUpdate
  internalCorpus : List CompanyDocument
  savedAnalyses : List SavedAnalysis
  activeAnalysisId : Option String
  error : Option String
  fetchStatus : FetchState
  challengeResult : Option ChallengeAnalysisResult
  summarizedUserAustracUpdates : List AustracUpdate
  currentInputsForChallenge : InputsSnapshot
  selectedRegulatoryIdsForGapReview : List String
  selectedCompanyDocIdsForGapReview : List String
  challengeNotification : Option String
  deepDiveAnalysisNotification : Option String
  currentAnalysisPrompts : Option (String × String)
  deepDiveResult : Option DeepDiveAnalysisResult
  selectedDocForDeepDiveId : Option String
  deepDiveGroundingMetadata : Option GroundingMetadata
  deepDiveFetchStatus : FetchState
deriving DecidableEq, Repr

/-- `handleDeleteAnalysis(idToDelete)`. -/
def handleDeleteAnalysis (st : AppState) (idToDelete : String) : AppState :=
  let st1 := { st with
    savedAnalyses := st.savedAnalyses.filter (fun sa => sa.id != idToDelete) }
  if st.activeAnalysisId = some idToDelete then
    { st1 with
      activeAnalysisId := none
      challengeResult := none
      summarizedUserAustracUpdates := []
      currentInputsForChallenge := ⟨[], []⟩
      fetchStatus := .idle
      deepDiveResult := none
      selectedDocForDeepDiveId := none
      deepDiveGroundingMetadata := none
      deepDiveFetchStatus := .idle
      currentAnalysisPrompts := none }
  else st1

/-- `handleRenameAnalysis(idToRename, newName)` (acts only on the
saved-analyses list). -/
def handleRenameAnalysis (analyses : List SavedAnalysis) (idToRename : String)
    (newName : String) : List SavedAnalysis :=
  analyses.map (fun sa =>
    if sa.id = idToRename then { sa with name := newName } else sa)

/-! ## JSON (`JSON.parse` as used at the parse boundary) -/

/-- JSON values. Number lexemes are kept verbatim (no operation of the
modelled code reads a numeric value). -/
inductive Json where
  | null
  | bool (b : Bool)
  | num (lexeme : String)
  | str (s : String)
  | arr (elements : List Json)
  | obj (fields : List (String × Json))

/-- JSON insignificant whitespace. -/
def jsonWsChar (c : Char) : Bool :=
  c = ' ' || c = '\t' || c = '\n' || c = '\r'

/-- Skip JSON whitespace. -/
def skipJsonWs (l : List Char) : List Char := l.dropWhile jsonWsChar

/-- ASCII decimal digit. -/
def digitChar (c : Char) : Bool := '0' ≤ c && c ≤ '9'

/-- ASCII hexadecimal digit. -/
def hexDigitChar (c : Char) : Bool :=
  digitChar c || ('a' ≤ c && c ≤ 'f') || ('A' ≤ c && c ≤ 'F')

/-- Value of a hexadecimal digit. -/
def hexVal (c : Char) : Nat :=
  if digitChar c then c.toNat - '0'.toNat
  else if 'a' ≤ c && c ≤ 'f' then c.toNat - 'a'.toNat + 10
  else c.toNat - 'A'.toNat + 10

/-- Body of a JSON string after the opening `"`: decoded characters and the
input remaining after the closing `"`. A `\u` escape denoting a lone
surrogate decodes to `'\0'` here (a JS string would keep the surrogate; no
modelled operation distinguishes the two). -/
def parseStringBody : Nat → List Char → Option (List Char × List Char)
  | 0, _ => none
  | _ + 1, [] => none
  | fuel + 1, c :: rest =>
    if c = '"' then some ([], rest)
    else if c = '\\' then
      match rest with
      | [] => none
      | e :: rest2 =>
        if e = '"' || e = '\\' || e = '/' then
          (parseStringBody fuel rest2).map (fun pr => (e :: pr.1, pr.2))
        else if e = 'b' then
          (parseStringBody fuel rest2).map (fun pr => ('\x08' :: pr.1, pr.2))
        else if e = 'f' then
          (parseStringBody fuel rest2).map (fun pr => ('\x0c' :: pr.1, pr.2))
        else if e = 'n' then
          (parseStringBody fuel rest2).map (fun pr => ('\n' :: pr.1, pr.2))
        else if e = 'r' then
          (parseStringBody fuel rest2).map (fun pr => ('\r' :: pr.1, pr.2))
        else if e = 't' then
          (parseStringBody fuel rest2).map (fun pr => ('\t' :: pr.1, pr.2))
        else if e = 'u' then
          match rest2 with
          | h1 :: h2 :: h3 :: h4 :: rest3 =>
            if hexDigitChar h1 && hexDigitChar h2 && hexDigitChar h3 && hexDigitChar h4 then
              (parseStringBody fuel rest3).map (fun pr =>
                (Char.ofNat (((hexVal h1 * 16 + hexVal h2) * 16 + hexVal h3) * 16 + hexVal h4) :: pr.1, pr.2))
            else none
          | _ => none
        else none
    else if c.toNat < 0x20 then none
    else (parseStringBody fuel rest).map (fun pr => (c :: pr.1, pr.2))

/-- Optional fraction part `(\.\d+)?` of a JSON number. -/
def parseFracPart (l : List Char) : Option (List Char × List Char) :=
  match l with
  | '.' :: r =>
    let ds := r.takeWhile digitChar
    if ds.isEmpty then none else some ('.' :: ds, r.drop ds.length)
  | _ => some ([], l)

/-- Optional exponent part `([eE][+-]?\d+)?` of a JSON number. -/
def parseExpPart (l : List Char) : Option (List Char × List Char) :=
  match l with
  | c :: r =>
    if c = 'e' || c = 'E' then
      let sgn := match r with
        | s :: _ => if s = '+' || s = '-' then [s] else []
        | [] => []
      let r1 := r.drop sgn.length
      let ds := r1.takeWhile digitChar
      if ds.isEmpty then none else some (c :: (sgn ++ ds), r1.drop ds.length)
    else some ([], l)
  | [] => some ([], l)

/-- JSON number lexeme `-?(0|[1-9]\d*)(\.\d+)?([eE][+-]?\d+)?`. -/
def parseNumberLexeme (l : List Char) : Option (List Char × List Char) :=
  let sgn : List Char := match l with
    | '-' :: _ => ['-']
    | _ => []
  let l1 := l.drop sgn.length
  match l1 with
  | [] => none
  | c :: r =>
    if c = '0' then
      match parseFracPart r with
      | some (fr, r1) =>
        match parseExpPart r1 with
        | some (ex, r2) => some (sgn ++ [c] ++ fr ++ ex, r2)
        | none => none
      | none => none
    else if digitChar c then
      let ds := r.takeWhile digitChar
      let r0 := r.drop ds.length
      match parseFracPart r0 with
      | some (fr, r1) =>
        match parseExpPart r1 with
        | some (ex, r2) => some (sgn ++ [c] ++ ds ++ fr ++ ex, r2)
        | none => none
      | none => none
    else none

mutual

/-- One JSON value at the head of the input (leading whitespace already
skipped). -/
def parseJsonValue : Nat → List Char → Option (Json × List Char)
  | 0, _ => none
  | fuel + 1, l =>
    match l with
    | [] => none
    | c :: rest =>
      if c = '{' then
        match skipJsonWs rest with
        | '}' :: r => some (.obj [], r)
        | l1 =>
          match parseJsonMembers fuel l1 with
          | some (fs, r) => some (.obj fs, r)
          | none => none
      else if c = '[' then
        match skipJsonWs rest with
        | ']' :: r => some (.arr [], r)
        | l1 =>
          match parseJsonElements fuel l1 with
          | some (es, r) => some (.arr es, r)
          | none => none
      else if c = '"' then
        (parseStringBody (rest.length + 1) rest).map
          (fun pr => (.str (String.mk pr.1), pr.2))
      else if c = 't' then
        if ("rue".toList).isPrefixOf rest then some (.bool true, rest.drop 3) else none
      else if c = 'f' then
        if ("alse".toList).isPrefixOf rest then some (.bool false, rest.drop 4) else none
      else if c = 'n' then
        if ("ull".toList).isPrefixOf rest then some (.null, rest.drop 3) else none
      else if c = '-' || digitChar c then
        (parseNumberLexeme l).map (fun pr => (.num (String.mk pr.1), pr.2))
      else none

/-- One or more `"key": value` members up to the closing `}`. -/
def parseJsonMembers : Nat → List Char → Option (List (String × Json) × List Char)
  | 0, _ => none
  | fuel + 1, l =>
    match l with
    | '"' :: rest =>
      match parseStringBody (rest.length + 1) rest with
      | some (keyChars, r1) =>
        match skipJsonWs r1 with
        | ':' :: r2 =>
          match parseJsonValue fuel (skipJsonWs r2) with
          | some (v, r3) =>
            match skipJsonWs r3 with
            | '}' :: r4 => some ([(String.mk keyChars, v)], r4)
            | ',' :: r4 =>
              match parseJsonMembers fuel (skipJsonWs r4) with
              | some (fs, r5) => some ((String.mk keyChars, v) :: fs, r5)
              | none => none
            | _ => none
          | none => none
        | _ => none
      | none => none
    | _ => none

/-- One or more array elements up to the closing `]`. -/
def parseJsonElements : Nat → List Char → Option (List Json × List Char)
  | 0, _ => none
  | fuel + 1, l =>
    match parseJsonValue fuel l with
    | some (v, r) =>
      match skipJsonWs r with
      | ']' :: r1 => some ([v], r1)
      | ',' :: r1 =>
        match parseJsonElements fuel (skipJsonWs r1) with
        | some (vs, r2) => some (v :: vs, r2)
        | none => none
      | _ => none
    | none => none

end

/-- `JSON.parse(s)`: `some` the parsed value, `none` a thrown `SyntaxError`.
The fuel `length + 1` is adequate because every recursive level consumes at
least one character first. -/
def jsonParse (s : String) : Option Json :=
  let l := skipJsonWs s.toList
  match parseJsonValue (l.length + 1) l with
  | some (j, rest) => if (skipJsonWs rest).isEmpty then some j else none
  | none => none

/-! ## JSON Repair Engine (the four textual steps before `JSON.parse`) -/

/-- Longest trailing run of JS whitespace removed. -/
def dropTrailingWs (l : List Char) : List Char :=
  (l.reverse.dropWhile jsWsChar).reverse

/-- `/^```(\w*)?\s*\n?(.*?)\n?\s*```$/s`: the captured interior
(`match[2]`), when the regex matches. The quantifier boundaries are over
disjoint character classes and the interior is lazy, so the match is the
maximal opening run and the maximal closing whitespace run before the final
fence. -/
def fenceInterior (l : List Char) : Option (List Char) :=
  if ("```".toList).isPrefixOf l then
    let afterOpen := ((l.drop 3).dropWhile wordChar).dropWhile jsWsChar
    if ("```".toList).isSuffixOf afterOpen then
      some (dropTrailingWs (afterOpen.take (afterOpen.length - 3)))
    else none
  else none

/-- Step 1 of the repair pipeline: `if (match && match[2]) jsonStr =
match[2].trim()` (an empty interior is falsy and leaves the text alone). -/
def stripCodeFence (s : String) : String :=
  match fenceInterior s.toList with
  | some interior =>
    if interior.isEmpty then s else jsTrim (String.mk interior)
  | none => s

/-- After a `}`: `\s*[a-zA-Z_][a-zA-Z0-9_]*\s*{`, returning the input
remaining after the matched `{`. -/
def matchStrayWordBrace (l : List Char) : Option (List Char) :=
  match l.dropWhile jsWsChar with
  | c :: rest =>
    if identStartChar c then
      match (rest.dropWhile wordChar).dropWhile jsWsChar with
      | '{' :: r => some r
      | _ => none
    else none
  | [] => none

/-- `malformationRegex1.test(jsonStr)` for
`/(})\s*([a-zA-Z_][a-zA-Z0-9_]*)\s*({)/g`. -/
def hasBraceWordBrace : List Char → Bool
  | [] => false
  | c :: rest => (c = '}' && (matchStrayWordBrace rest).isSome) || hasBraceWordBrace rest

/-- Global replace `jsonStr.replace(malformationRegex1, '$1, $3')`; the scan
resumes after each full match, and the fuel is adequate whenever it is at
least the input length. -/
def replaceBraceWordBraceGo : Nat → List Char → List Char
  | 0, l => l
  | _ + 1, [] => []
  | fuel + 1, c :: rest =>
    if c = '}' then
      match matchStrayWordBrace rest with
      | some r => '}' :: ',' :: ' ' :: '{' :: replaceBraceWordBraceGo fuel r
      | none => '}' :: replaceBraceWordBraceGo fuel rest
    else c :: replaceBraceWordBraceGo fuel rest

/-- Entry point for `replaceBraceWordBraceGo`. -/
def replaceBraceWordBrace (l : List Char) : List Char :=
  replaceBraceWordBraceGo l.length l

/-- After a `}`: `\s*[a-zA-Z_][a-zA-Z0-9_]*\s*,`, returning the input
remaining after the matched `,`. -/
def matchStrayWordComma (l : List Char) : Option (List Char) :=
  match l.dropWhile jsWsChar with
  | c :: rest =>
    if identStartChar c then
      match (rest.dropWhile wordChar).dropWhile jsWsChar with
      | ',' :: r => some r
      | _ => none
    else none
  | [] => none

/-- `malformationRegex2.test(jsonStr)` for
`/(})\s*[a-zA-Z_][a-zA-Z0-9_]*\s*(,)/g`. -/
def hasBraceWordComma : List Char → Bool
  | [] => false
  | c :: rest => (c = '}' && (matchStrayWordComma rest).isSome) || hasBraceWordComma rest

/-- Global replace `jsonStr.replace(malformationRegex2, '$1$2')`. -/
def replaceBraceWordCommaGo : Nat → List Char → List Char
  | 0, l => l
  | _ + 1, [] => []
  | fuel + 1, c :: rest =>
    if c = '}' then
      match matchStrayWordComma rest with
      | some r => '}' :: ',' :: replaceBraceWordCommaGo fuel r
      | none => '}' :: replaceBraceWordCommaGo fuel rest
    else c :: replaceBraceWordCommaGo fuel rest

/-- Entry point for `replaceBraceWordCommaGo`. -/
def replaceBraceWordComma (l : List Char) : List Char :=
  replaceBraceWordCommaGo l.length l

/-- A full match of `/("timeline":\s*".*?",\s*)"(High|Medium|Low)"/` at the
current position, split into its variable parts. -/
structure TimelineMatch where
  wsAfterColon : List Char
  valueContent : List Char
  wsAfterComma : List Char
  word : String
  rest : List Char

/-- `"(High|Medium|Low)"` at the head of the input. -/
def matchPriorityWord (l : List Char) : Option (String × List Char) :=
  if ("\"High\"".toList).isPrefixOf l then some ("High", l.drop 6)
  else if ("\"Medium\"".toList).isPrefixOf l then some ("Medium", l.drop 8)
  else if ("\"Low\"".toList).isPrefixOf l then some ("Low", l.drop 5)
  else none

/-- Continuation `,\s*"(High|Medium|Low)"` after a candidate closing quote
of the timeline value. -/
def matchTimelineCont (l : List Char) : Option (List Char × String × List Char) :=
  match l with
  | ',' :: r =>
    let ws := r.takeWhile jsWsChar
    match matchPriorityWord (r.drop ws.length) with
    | some (w, r2) => some (ws, w, r2)
    | none => none
  | _ => none

/-- Lazy `.*?"` scan for the closing quote of the timeline value: the first
candidate quote (left to right, never crossing a newline since `.` does not
match one) whose continuation succeeds; a quote with a failing continuation
joins the value content, exactly as the backtracking `.*?` would extend. -/
def timelineValueScan : List Char → Option TimelineMatch
  | [] => none
  | c :: rest =>
    if c = '\n' then none
    else if c = '"' then
      match matchTimelineCont rest with
      | some (ws, w, r2) => some ⟨[], [], ws, w, r2⟩
      | none =>
        (timelineValueScan rest).map (fun m => { m with valueContent := c :: m.valueContent })
    else
      (timelineValueScan rest).map (fun m => { m with valueContent := c :: m.valueContent })

/-- The full regex match attempt at the current position. -/
def matchTimelineAt (l : List Char) : Option TimelineMatch :=
  if ("\"timeline\":".toList).isPrefixOf l then
    let t := l.drop ("\"timeline\":".toList.length)
    let ws := t.takeWhile jsWsChar
    match t.drop ws.length with
    | '"' :: t2 =>
      match timelineValueScan t2 with
      | some m => some { m with wsAfterColon := ws }
      | none => none
    | _ => none
  else none

/-- `missingPriorityKeyRegex.test(jsonStr)`. -/
def hasTimelinePriorityDefect : List Char → Bool
  | [] => false
  | l@(_ :: rest) => (matchTimelineAt l).isSome || hasTimelinePriorityDefect rest

/-- The replacement text `'$1"priority_level": "$2"'` for one match, where
`$1` is the whole run from `"timeline":` through the whitespace after the
comma and `$2` the priority word. -/
def timelineReplacement (m : TimelineMatch) : List Char :=
  ("\"timeline\":".toList) ++ m.wsAfterColon ++ '"' :: (m.valueContent ++ '"' :: ',' :: (m.wsAfterComma ++ ("\"priority_level\": \"" ++ m.word ++ "\"").toList))

/-- Global replace `jsonStr.replace(missingPriorityKeyRegex,
'$1"priority_level": "$2"')`. -/
def insertPriorityKeyGo : Nat → List Char → List Char
  | 0, l => l
  | _ + 1, [] => []
  | fuel + 1, l@(c :: rest) =>
    match matchTimelineAt l with
    | some m => timelineReplacement m ++ insertPriorityKeyGo fuel m.rest
    | none => c :: insertPriorityKeyGo fuel rest

/-- Entry point for `insertPriorityKeyGo`. -/
def insertPriorityKey (l : List Char) : List Char := insertPriorityKeyGo l.length l

/-- The repair pipeline applied by `generateGapReview` and
`generateDeepDive` between `response.text.trim()` and `JSON.parse`: fence
stripping, then each regex rewrite conditionally on its `test`. -/
def repairJson (s : String) : String :=
  let s1 := stripCodeFence s
  let s2 := if hasBraceWordBrace s1.toList then String.mk (replaceBraceWordBrace s1.toList) else s1
  let s3 := if hasBraceWordComma s2.toList then String.mk (replaceBraceWordComma s2.toList) else s2
  if hasTimelinePriorityDefect s3.toList then String.mk (insertPriorityKey s3.toList) else s3

/-! ## Parse-boundary decoding and post-processing (`generateGapReview`) -/

/-- `value.key` on a parsed JSON value (`undefined` when absent or when the
value is not an object; `JSON.parse` keeps the last duplicate key). -/
def Json.getField (j : Json) (key : String) : Option Json :=
  match j with
  | .obj fs => (fs.reverse.find? (fun f => f.1 == key)).map (fun f => f.2)
  | _ => none

/-- JS truthiness of a JSON value (`false`, `0`, `""` and `null` are falsy;
a number is zero exactly when its mantissa has no nonzero digit). -/
def Json.truthy : Json → Bool
  | .null => false
  | .bool b => b
  | .str s => s != ""
  | .num lexeme => (lexeme.toList.takeWhile (fun c => c ≠ 'e' && c ≠ 'E')).any
      (fun c => '1' ≤ c && c ≤ '9')
  | .arr _ => true
  | .obj _ => true

/-- `(parsedResult.<key> || [])` followed by `.map(...)`: `some` the element
list when the field is an array or defaults to one, `none` when the member
access chain would throw a `TypeError` (truthy non-array), which the
source's surrounding `catch` turns into the parse-failure handling. -/
def jsonArrayOrEmpty (j : Json) (key : String) : Option (List Json) :=
  match j.getField key with
  | none => some []
  | some (.arr xs) => some xs
  | some v => if v.truthy then none else some []

/-- A string-valued field of a generator-produced item (`undefined` and
non-string values are treated as absent; the requested schema makes all
these fields strings). -/
def Json.getStr (j : Json) (key : String) : Option String :=
  match j.getField key with
  | some (.str s) => some s
  | _ => none

/-- `['High', 'Medium', 'Low'].includes(x) ? x : 'Medium'`. -/
def coercePriority (o : Option String) : String :=
  match o with
  | some s => if s = "High" || s = "Medium" || s = "Low" then s else "Medium"
  | none => "Medium"

/-- Post-processing of one parsed suggested change: fresh id from the wall
clock, the element index and a random suffix
(`sc-${Date.now()}-${index}-${generateUniqueId().substring(0,5)}`), priority
coercion, and `"N/A"` backfill for missing text fields. -/
def postProcessChange (now : Nat) (uid : Nat → String) (i : Nat) (cj : Json) :
    SuggestedChange :=
  { id := "sc-" ++ toString now ++ "-" ++ toString i ++ "-" ++ (uid i).take 5
    document_section := strOrDefault (cj.getStr "document_section") "N/A"
    current_status_summary := strOrDefault (cj.getStr "current_status_summary") "N/A"
    austrac_relevance := strOrDefault (cj.getStr "austrac_relevance") "N/A"
    suggested_modification := strOrDefault (cj.getStr "suggested_modification") "N/A"
    priority := coercePriority (cj.getStr "priority")
    userFeedback := none
    source_document_name := cj.getStr "source_document_name" }

/-- Post-processing of one parsed action-plan item. -/
def postProcessActionItem (now : Nat) (uid : Nat → String) (i : Nat) (ij : Json) :
    ActionPlanItem :=
  { id := "ap-" ++ toString now ++ "-" ++ toString i ++ "-" ++ (uid i).take 5
    task := strOrDefault (ij.getStr "task") "N/A"
    responsible := strOrDefault (ij.getStr "responsible") "N/A"
    timeline := strOrDefault (ij.getStr "timeline") "N/A"
    priority_level := coercePriority (ij.getStr "priority_level")
    userFeedback := none }

/-- `change.source_document_name || 'General'`. -/
def groupNameOf (c : SuggestedChange) : String :=
  strOrDefault c.source_document_name "General"

/-- Insert one change under its key in the `Record<string,
SuggestedChange[]>` being built (JS objects preserve key insertion order and
pushes append). -/
def groupInsert (m : List (String × List SuggestedChange)) (k : String)
    (c : SuggestedChange) : List (String × List SuggestedChange) :=
  if m.any (fun kv => kv.1 == k) then
    m.map (fun kv => if kv.1 == k then (kv.1, kv.2 ++ [c]) else kv)
  else m ++ [(k, [c])]

/-- The `groupedSuggestions` recomputation of `generateGapReview`. -/
def groupSuggestions (changes : List SuggestedChange) :
    List (String × List SuggestedChange) :=
  changes.foldl (fun m c => groupInsert m (groupNameOf c) c) []

/-! ## Gap Review orchestration (`generateGapReview`) -/

/-- One Generator or Retriever invocation. -/
inductive CollaboratorCall where
  | generate (prompt : String)
  | retrieve (query : String) (topK : Nat)
deriving DecidableEq, Repr

/-- External-collaborator outcomes for one `generateGapReview` run: the
summary text per regulatory document (`none` models a rejected summary
call, which the source converts into a placeholder), the chunks returned by
the single retrieval call, the final generation text, ingestion success per
document id, the wall-clock instant and the random id suffixes. -/
structure GapOracle where
  summaryFor : AustracUpdate → Option String
  retrieved : List DocumentChunk
  genText : String
  ingestOk : String → Bool
  now : Nat
  uid : Nat → String

/-- `ingestAllUnprocessedDocuments(false)`: every not-yet-processed document
(company and regulatory) is submitted to the ingestion collaborator;
successes flip `isProcessedForRag`, failures are tolerated. -/
def ingestAllUnprocessed (ingestOk : String → Bool) (st : AppState) : AppState :=
  { st with
    internalCorpus := st.internalCorpus.map (fun d =>
      if !d.isProcessedForRag && ingestOk d.id then { d with isProcessedForRag := true } else d)
    userAustracContent := st.userAustracContent.map (fun u =>
      if !u.isProcessedForRag && ingestOk u.id then { u with isProcessedForRag := true } else u) }

/-- `relevantChunks.filter(c => c.documentType === 'austrac' &&
targetedRegulatoryContent.some(d => d.id === c.documentId))`. -/
def regulatoryContextChunks (relevantChunks : List DocumentChunk)
    (targetedRegulatoryContent : List AustracUpdate) : List DocumentChunk :=
  relevantChunks.filter (fun c =>
    c.documentType == "austrac" && targetedRegulatoryContent.any (fun d => d.id == c.documentId))

/-- `relevantChunks.filter(c => c.documentType === 'company' &&
targetedCompanyDocs.some(d => d.id === c.documentId))`. -/
def companyContextChunks (relevantChunks : List DocumentChunk)
    (targetedCompanyDocs : List CompanyDocument) : List DocumentChunk :=
  relevantChunks.filter (fun c =>
    c.documentType == "company" && targetedCompanyDocs.any (fun d => d.id == c.documentId))

/-- `austracContextFromChunks`. -/
def regulatoryContextText (chunks : List DocumentChunk) : String :=
  joinSep "\n\n---\n\n" (chunks.map (fun c =>
    "From Regulatory Document \"" ++ c.documentName ++ "\" (Retrieved via Vertex AI RAG):\n" ++ c.text))

/-- `companyContextFromChunks`. -/
def companyContextText (chunks : List DocumentChunk) : String :=
  joinSep "\n\n---\n\n" (chunks.map (fun c =>
    "From Company Document \"" ++ c.documentName ++ "\" (Retrieved via Vertex AI RAG):\n" ++ c.text))

/-- The Gap Review system prompt (task framing plus the learnings block,
appended only when learnings were selected). -/
def gapReviewSystemPrompt (contextualLearnings : List String) : String :=
  "\n        Analyze the provided context against the company's internal documentation context. This is a \"Gap Review\" to find gaps and suggest improvements, specifically focusing on the impact of the newly provided regulatory content on the selected company documents.\n        The company is a Fintech firm focused on international payments and currency exchange.\n        Critically evaluate whether the company's documentation reflects a robust, risk-based approach to compliance, where controls are proportionate to the identified risks.\n        Identify specific, actionable changes the company needs to make. Also, create a prioritized action plan.\n        " ++
  (if contextualLearnings.length > 0 then
    "\n---Important Context from Previous User Feedback:...\n" ++
      joinSep "\n" (contextualLearnings.map (fun l => "- " ++ l)) ++ "\n---"
   else "") ++ "\n      "

/-- The per-document summary prompt. -/
def summaryPromptFor (u : AustracUpdate) : String :=
  "Summarize the key compliance implications from the following regulatory content titled \"" ++
    u.title ++ "\". Focus on actionable changes or requirements for a financial services provider, particularly one involved in international payments and currency exchange. The content is: \n\n" ++
    u.rawContent.take 30000

/-- `combinedQueryForRag`. -/
def combinedQueryForRag (summarized : List AustracUpdate)
    (targetedCompanyDocs : List CompanyDocument) : String :=
  "Compliance Gap Review for international payments fintech. Analyze impact of new regulations: " ++
    joinSep ", " (summarized.map (fun u => u.title)) ++
    " against selected company policies. Company documents include: " ++
    joinSep ", " (targetedCompanyDocs.map (fun d => d.name)) ++ "."

/-- `userPromptContext`: the regulatory section (retrieved chunks, falling
back to the summaries) followed by the company section (retrieved chunks,
falling back to the document names). -/
def gapReviewUserPromptContext (austracCtx companyCtx : String)
    (summarized : List AustracUpdate) (targetedCompanyDocs : List CompanyDocument) : String :=
  (if austracCtx != "" then
    "\n\nRetrieved Targeted Regulatory Updates Context (from Vertex AI RAG):\n" ++ austracCtx
   else
    "\n\nNo specific Regulatory document context retrieved from Vertex AI RAG; using summaries of the targeted documents. Summaries: \n" ++
      joinSep "\n" (summarized.map (fun u =>
        "Title: " ++ u.title ++ ", Summary: " ++ strOrDefault u.summary "N/A"))) ++
  (if companyCtx != "" then
    "\n\nRetrieved Company's Internal Documents Context (from Vertex AI RAG):\n" ++ companyCtx
   else
    "\n\nNo specific company document context retrieved from Vertex AI RAG; relying on general document names/types provided. Selected company docs: " ++
      joinSep ", " (targetedCompanyDocs.map (fun d => d.name)))

/-- The Gap Review user prompt (context sections plus the JSON-schema
instruction block). -/
def gapReviewUserPrompt (ctx : String) : String :=
  "\n        " ++ ctx ++
  "\n\n        Output the analysis in JSON format. For each item in \"suggested_changes\", you MUST include a \"source_document_name\" field indicating which of the provided Company Documents it applies to.\n\n        JSON Structure:\n        \x7b\n          \"suggested_changes\": [ \x7b \"source_document_name\": \"Name Of The Document.pdf\", \"document_section\": \"...\", \"current_status_summary\": \"...\", \"austrac_relevance\": \"...\", \"suggested_modification\": \"...\", \"priority\": \"High | Medium | Low\" \x7d ],\n          \"action_plan\": [ \x7b \"task\": \"...\", \"responsible\": \"...\", \"timeline\": \"...\", \"priority_level\": \"High | Medium | Low\" \x7d ]\n        \x7d\n        Ensure \"document_section\" refers to sections within the \"source_document_name\".\n        Prioritize clarity and actionability. If a document is compliant, note it.\n      "

/-- `generateGapReview(targetRegulatoryIds, companyDocIds)` as a pure
function of the client availability, the component state and the
collaborator oracle. `topK` is the `RAG_TOP_K_CHUNKS_ANALYSIS` constant
(its numeric value lives in `constants.tsx`; only its being passed verbatim
to the retrieval call matters here). Returns the new state and the ordered
log of Generator/Retriever calls issued. -/
def generateGapReview (ai : Bool) (targetRegulatoryIds companyDocIds : List String)
    (topK : Nat) (o : GapOracle) (st : AppState) : AppState × List CollaboratorCall :=
  if !ai then
    ({ st with error := some "AI client not initialized.", fetchStatus := .error }, [])
  else if companyDocIds.length = 0 || targetRegulatoryIds.length = 0 then
    ({ st with
        error := some "Please select at least one Company Document AND at least one Regulatory Input to target for the Gap Review.",
        fetchStatus := .idle }, [])
  else
    let targetedRegulatoryContent := st.userAustracContent.filter (fun doc => targetRegulatoryIds.contains doc.id)
    let targetedCompanyDocs := st.internalCorpus.filter (fun doc => companyDocIds.contains doc.id)
    let st1 := { st with
      fetchStatus := .loading
      error := none
      challengeResult := none
      summarizedUserAustracUpdates := []
      currentInputsForChallenge := ⟨[], []⟩
      activeAnalysisId := none
      challengeNotification := none
      deepDiveAnalysisNotification := none
      currentAnalysisPrompts := none }
    let uningested := targetedCompanyDocs.any (fun d => !d.isProcessedForRag) ||
      targetedRegulatoryContent.any (fun d => !d.isProcessedForRag)
    let st2 := if uningested then ingestAllUnprocessed o.ingestOk st1 else st1
    let allPastLearnings := extractLearningsFromFeedback
      (st.savedAnalyses.filter (fun sa => sa.analysisType == AnalysisType.challenge)) none
    let contextualLearnings := selectContextualLearningsForChallengePrompt
      allPastLearnings (targetedCompanyDocs.map (fun d => d.name)) 7
    let systemPrompt := gapReviewSystemPrompt contextualLearnings
    let summaryCalls := targetedRegulatoryContent.map
      (fun u => CollaboratorCall.generate (summaryPromptFor u))
    let newSummarized := targetedRegulatoryContent.map (fun u =>
      match o.summaryFor u with
      | some t => { u with summary := some t }
      | none => { u with summary := some "Could not generate summary due to an error." })
    let query := combinedQueryForRag newSummarized targetedCompanyDocs
    let relevantChunks := o.retrieved
    let austracCtx := regulatoryContextText (regulatoryContextChunks relevantChunks targetedRegulatoryContent)
    let companyCtx := companyContextText (companyContextChunks relevantChunks targetedCompanyDocs)
    let userPrompt := gapReviewUserPrompt
      (gapReviewUserPromptContext austracCtx companyCtx newSummarized targetedCompanyDocs)
    let calls := summaryCalls ++
      [CollaboratorCall.retrieve query topK, CollaboratorCall.generate (systemPrompt ++ userPrompt)]
    let jsonStr := repairJson (jsTrim o.genText)
    let parsedArrays : Option (List Json × List Json) :=
      match jsonParse jsonStr with
      | some j =>
        match jsonArrayOrEmpty j "suggested_changes", jsonArrayOrEmpty j "action_plan" with
        | some scs, some aps => some (scs, aps)
        | _, _ => none
      | none => none
    match parsedArrays with
    | none =>
      ({ st2 with
          summarizedUserAustracUpdates := newSummarized
          error := some "Failed to parse the analysis from the AI. The response was not valid JSON. Raw response logged to console."
          fetchStatus := .error
          challengeNotification := none }, calls)
    | some (scs, aps) =>
      let suggested := scs.mapIdx (fun i cj => postProcessChange o.now o.uid i cj)
      let plan := aps.mapIdx (fun i ij => postProcessActionItem o.now o.uid i ij)
      let inputsUsed : InputsSnapshot :=
        ⟨targetedCompanyDocs.map (fun d => ⟨d.id, d.name, d.fileType, d.lastModified, d.size⟩),
         targetedRegulatoryContent.map (fun d => ⟨d.id, d.title, d.fileType, d.dateAdded⟩)⟩
      let parsedResult : ChallengeAnalysisResult :=
        ⟨suggested, plan, some (groupSuggestions suggested)⟩
      let newId := "analysis-" ++ toString o.now
      let newSaved : SavedAnalysis :=
        { id := newId
          name := "Gap Review - " ++ toString o.now
          timestamp := o.now
          analysisType := .challenge
          challengeAnalysisResult := some parsedResult
          austracInputsUsedSnapshot := some inputsUsed.austracContent
          companyDocumentsUsedSnapshot := some inputsUsed.companyDocs
          summarizedAustracUpdatesSnapshot := some newSummarized
          learningsAppliedToThisAnalysis := some contextualLearnings
          selectedDocumentSnapshot := none
          deepDiveAnalysisResult := none
          groundingMetadata := none
          userPrompt := some userPrompt
          systemPrompt := some systemPrompt }
      ({ st2 with
          summarizedUserAustracUpdates := newSummarized
          currentInputsForChallenge := inputsUsed
          challengeResult := some parsedResult
          savedAnalyses := newSaved :: st2.savedAnalyses
          activeAnalysisId := some newId
          currentAnalysisPrompts := some (systemPrompt, userPrompt)
          fetchStatus := .success
          challengeNotification := none
          selectedRegulatoryIdsForGapReview := []
          selectedCompanyDocIdsForGapReview := [] }, calls)

/-! ## Specification-side definitions (for comparison with the source) -/

/-- The specification's qualification condition for extracted learnings,
written from the spec's words: status is `"Actioned"`, OR `finalAdoptedText`
is non-empty, OR status is `"Not Applicable"` and the notes are non-empty
after trimming. Used to compare the specified behaviour with the source's
guard, which additionally requires a truthy status. -/
def specQualifiesAsLearning (fb : UserFeedback) : Bool :=
  fb.status == some "Actioned" || optTruthy fb.finalAdoptedText ||
    (fb.status == some "Not Applicable" && jsTrim (fb.notes.getD "") != "")

/-- The specification's relevance relation for prompt learning selection,
written from the spec's words: the fragment (lower-cased) is a substring of,
or contains, some target document's name (lower-cased). The source checks
only the "contains" direction. -/
def specLearningRelevantToDocs (frag : String) (docNames : List String) : Bool :=
  docNames.any (fun n =>
    strIncludes (strLower n) (strLower frag) || strIncludes (strLower frag) (strLower n))

/-! ## Concrete sample values used by counterexamples and witnesses -/

/-- Feedback carrying only an adopted text, with no status label set. -/
def fbAdoptedOnly : UserFeedback :=
  { status := none, notes := none, lastUpdated := "2024-01-01T00:00:00.000Z",
    finalAdoptedText := some "Adopted wording." }

/-- A suggested change carrying `fbAdoptedOnly`. -/
def changeAdoptedOnly : SuggestedChange :=
  { id := "sc-1", document_section := "Customer Due Diligence",
    current_status_summary := "ok", austrac_relevance := "high",
    suggested_modification := "update", priority := "High",
    userFeedback := some fbAdoptedOnly, source_document_name := some "Policy A.pdf" }

/-- A saved Gap Review analysis containing `changeAdoptedOnly`. -/
def analysisAdoptedOnly : SavedAnalysis :=
  { id := "a1", name := "Gap Review - sample", timestamp := 100,
    analysisType := .challenge,
    challengeAnalysisResult := some ⟨[changeAdoptedOnly], [], none⟩,
    austracInputsUsedSnapshot := none, companyDocumentsUsedSnapshot := none,
    summarizedAustracUpdatesSnapshot := none, learningsAppliedToThisAnalysis := none,
    selectedDocumentSnapshot := none, deepDiveAnalysisResult := none,
    groundingMetadata := none, userPrompt := none, systemPrompt := none }

/-- A learning string about the section `Policy A.pdf`. -/
def learningPolicyA : String :=
  "Feedback for suggestion regarding 'Policy A.pdf' (Gap Review: Q1 review...): User status set to 'Actioned'."

/-- A learning string whose fragment `Policy` is a proper substring of the
target document name `Policy A.pdf`. -/
def learningPolicyFragment : String :=
  "Feedback for suggestion regarding 'Policy' (Gap Review: Q1 review...): User status set to 'Actioned'."

/-- A small component state with one regulatory input and one company
document. -/
def stateSample : AppState :=
  { userAustracContent := [{ id := "r1", title := "Reg 1", rawContent := "content", fileType := "txt", dateAdded := "d", isProcessedForRag := true, summary := none }]
    internalCorpus := [{ id := "d1", name := "Policy A.pdf", textContent := "text", fileType := "pdf", lastModified := 5, size := 10, isProcessedForRag := true }]
    savedAnalyses := []
    activeAnalysisId := none
    error := none
    fetchStatus := .idle
    challengeResult := none
    summarizedUserAustracUpdates := []
    currentInputsForChallenge := ⟨[], []⟩
    selectedRegulatoryIdsForGapReview := []
    selectedCompanyDocIdsForGapReview := []
    challengeNotification := none
    deepDiveAnalysisNotification := none
    currentAnalysisPrompts := none
    deepDiveResult := none
    selectedDocForDeepDiveId := none
    deepDiveGroundingMetadata := none
    deepDiveFetchStatus := .idle }

/-- A concrete collaborator oracle: one targeted and one untargeted
regulatory chunk, one company chunk, and generator output whose first change
names its source document while the second does not. -/
def oracleSample : GapOracle :=
  { summaryFor := fun _ => some "summary"
    retrieved := [
      { id := "c1", documentId := "r1", documentName := "Reg 1", documentType := "austrac", text := "reg chunk", keywords := [], charCount := 9 },
      { id := "c2", documentId := "r2", documentName := "Reg 2", documentType := "austrac", text := "untargeted", keywords := [], charCount := 10 },
      { id := "c3", documentId := "d1", documentName := "Policy A.pdf", documentType := "company", text := "doc chunk", keywords := [], charCount := 9 }]
    genText := "\x7b\"suggested_changes\": [\x7b\"source_document_name\": \"Policy A.pdf\", \"document_section\": \"S1\", \"priority\": \"Urgent\"\x7d, \x7b\"document_section\": \"S2\", \"priority\": \"Low\"\x7d], \"action_plan\": [\x7b\"task\": \"T\", \"timeline\": \"Q1\", \"priority_level\": \"High\"\x7d]\x7d"
    ingestOk := fun _ => true
    now := 1000
    uid := fun _ => "abcdefgh" }

/-- A minimal oracle whose generator output has one suggested change with no
source document name and an empty action plan. -/
def oracleTiny : GapOracle :=
  { summaryFor := fun _ => some "s"
    retrieved := []
    genText := "\x7b\"suggested_changes\": [\x7b\"document_section\": \"S\", \"priority\": \"Low\"\x7d], \"action_plan\": []\x7d"
    ingestOk := fun _ => true
    now := 7
    uid := fun _ => "uuuuu" }

/-- The post-processed form of `oracleTiny`'s single suggested change. -/
def changeTiny : SuggestedChange :=
  { id := "sc-7-0-uuuuu", document_section := "S", current_status_summary := "N/A",
    austrac_relevance := "N/A", suggested_modification := "N/A", priority := "Low",
    userFeedback := none, source_document_name := none }

/-- A concrete patch replacing only the action plan. -/
def patchSample : ResultPatch :=
  { suggested_changes := none, action_plan := some [], groupedSuggestions := none,
    documentTitleAnalyzed := none, overallSummary := none, keyThemesAndTopics := none,
    additionalObservations := none, referencedRegulatoryInputs := none }

/-! # Theorems -/

/-! ## Helper lemmas -/

theorem rename_map_proj {α : Type} (analyses : List SavedAnalysis)
    (idToRename newName : String) (f : SavedAnalysis → α)
    (hf : ∀ sa, f { sa with name := newName } = f sa) :
    (handleRenameAnalysis analyses idToRename newName).map f = analyses.map f := by
  unfold handleRenameAnalysis
  induction analyses with
  | nil => rfl
  | cons a t ih =>
    have h1 : f (if a.id = idToRename then { a with name := newName } else a) = f a := by
      by_cases h : a.id = idToRename
      · rw [if_pos h]; exact hf a
      · rw [if_neg h]
    rw [List.map_cons, List.map_cons, List.map_cons, h1, ih]

theorem rename_not_present (analyses : List SavedAnalysis)
    (idToRename newName : String)
    (h : idToRename ∉ analyses.map (fun sa => sa.id)) :
    handleRenameAnalysis analyses idToRename newName = analyses := by
  induction analyses with
  | nil => rfl
  | cons a t ih =>
    simp only [List.map_cons, List.mem_cons] at h
    push_neg at h
    simp [handleRenameAnalysis] at ih ⊢
    exact ⟨fun hj => absurd hj.symm h.1, ih (by simpa using h.2)⟩

/-! ## C10: rename frame -/

/-- **C10**: renaming a saved analysis replaces only its `name` field — the
id, timestamp, type, results (with their attached feedback), input
snapshots, grounding metadata and stored prompts of every entry are
positionally unchanged (so the relative order of the store is unchanged,
the timestamp in particular not being refreshed), and renaming an id not
present in the store leaves the store unchanged. -/
theorem renameAnalysis_frame (analyses : List SavedAnalysis)
    (idToRename newName : String) :
    (handleRenameAnalysis analyses idToRename newName).map (fun sa => sa.id)
        = analyses.map (fun sa => sa.id) ∧
    (handleRenameAnalysis analyses idToRename newName).map (fun sa => sa.timestamp)
        = analyses.map (fun sa => sa.timestamp) ∧
    (handleRenameAnalysis analyses idToRename newName).map (fun sa => sa.analysisType)
        = analyses.map (fun sa => sa.analysisType) ∧
    (handleRenameAnalysis analyses idToRename newName).map (fun sa => sa.challengeAnalysisResult)
        = analyses.map (fun sa => sa.challengeAnalysisResult) ∧
    (handleRenameAnalysis analyses idToRename newName).map (fun sa => sa.deepDiveAnalysisResult)
        = analyses.map (fun sa => sa.deepDiveAnalysisResult) ∧
    (handleRenameAnalysis analyses idToRename newName).map (fun sa => sa.austracInputsUsedSnapshot)
        = analyses.map (fun sa => sa.austracInputsUsedSnapshot) ∧
    (handleRenameAnalysis analyses idToRename newName).map (fun sa => sa.companyDocumentsUsedSnapshot)
        = analyses.map (fun sa => sa.companyDocumentsUsedSnapshot) ∧
    (handleRenameAnalysis analyses idToRename newName).map (fun sa => sa.summarizedAustracUpdatesSnapshot)
        = analyses.map (fun sa => sa.summarizedAustracUpdatesSnapshot) ∧
    (handleRenameAnalysis analyses idToRename newName).map (fun sa => sa.learningsAppliedToThisAnalysis)
        = analyses.map (fun sa => sa.learningsAppliedToThisAnalysis) ∧
    (handleRenameAnalysis analyses idToRename newName).map (fun sa => sa.selectedDocumentSnapshot)
        = analyses.map (fun sa => sa.selectedDocumentSnapshot) ∧
    (handleRenameAnalysis analyses idToRename newName).map (fun sa => sa.groundingMetadata)
        = analyses.map (fun sa => sa.groundingMetadata) ∧
    (handleRenameAnalysis analyses idToRename newName).map (fun sa => sa.systemPrompt)
        = analyses.map (fun sa => sa.systemPrompt) ∧
    (handleRenameAnalysis analyses idToRename newName).map (fun sa => sa.userPrompt)
        = analyses.map (fun sa => sa.userPrompt) ∧
    (handleRenameAnalysis analyses idToRename newName).map (fun sa => sa.name)
        = analyses.map (fun sa => if sa.id = idToRename then newName else sa.name) ∧
    (idToRename ∉ analyses.map (fun sa => sa.id) →
      handleRenameAnalysis analyses idToRename newName = analyses) := by
  refine ⟨?_, ?_, ?_, ?_, ?_, ?_, ?_, ?_, ?_, ?_, ?_, ?_, ?_, ?_, ?_⟩
  case _ => exact rename_map_proj _ _ _ _ (fun _ => rfl)
  case _ => exact rename_map_proj _ _ _ _ (fun _ => rfl)
  case _ => exact rename_map_proj _ _ _ _ (fun _ => rfl)
  case _ => exact rename_map_proj _ _ _ _ (fun _ => rfl)
  case _ => exact rename_map_proj _ _ _ _ (fun _ => rfl)
  case _ => exact rename_map_proj _ _ _ _ (fun _ => rfl)
  case _ => exact rename_map_proj _ _ _ _ (fun _ => rfl)
  case _ => exact rename_map_proj _ _ _ _ (fun _ => rfl)
  case _ => exact rename_map_proj _ _ _ _ (fun _ => rfl)
  case _ => exact rename_map_proj _ _ _ _ (fun _ => rfl)
  case _ => exact rename_map_proj _ _ _ _ (fun _ => rfl)
  case _ => exact rename_map_proj _ _ _ _ (fun _ => rfl)
  case _ => exact rename_map_proj _ _ _ _ (fun _ => rfl)
  case _ =>
    unfold handleRenameAnalysis
    induction analyses with
    | nil => rfl
    | cons a t ih =>
      have h1 : (if a.id = idToRename then { a with name := newName } else a).name
          = (if a.id = idToRename then newName else a.name) := by
        by_cases h : a.id = idToRename
        · rw [if_pos h, if_pos h]
        · rw [if_neg h, if_neg h]
      rw [List.map_cons, List.map_cons, List.map_cons, h1, ih]
  case _ => exact rename_not_present analyses idToRename newName

/-- Witness for `renameAnalysis_frame` at a concrete store and an id not
present in it. -/
theorem renameAnalysis_frame_witness :
    "zz" ∉ [analysisAdoptedOnly].map (fun sa => sa.id) ∧
    handleRenameAnalysis [analysisAdoptedOnly] "zz" "New name" = [analysisAdoptedOnly] := by
  refine ⟨by decide, ?_⟩
  exact (renameAnalysis_frame [analysisAdoptedOnly] "zz" "New name").2.2.2.2.2.2.2.2.2.2.2.2.2.2
    (by decide)

/-! ## C9: delete consistency -/

/-- **C9**: deleting the currently active saved analysis removes it from the
store and clears the active pointer and every displayed derived result state
(cached Gap-Review and Deep-Dive result views, input snapshots, prompts,
grounding metadata) with both fetch states returned to idle; no entry with
the deleted id survives while every other entry does; and — under the
invariant that the active pointer refers to a stored analysis or is null —
deleting an id not present in the store is a no-op that leaves the whole
state (store and active pointer included) unchanged. -/
theorem deleteAnalysis_consistency (st : AppState) (idToDelete : String) :
    (st.activeAnalysisId = some idToDelete →
      (handleDeleteAnalysis st idToDelete).savedAnalyses
          = st.savedAnalyses.filter (fun sa => sa.id != idToDelete) ∧
      (handleDeleteAnalysis st idToDelete).activeAnalysisId = none ∧
      (handleDeleteAnalysis st idToDelete).challengeResult = none ∧
      (handleDeleteAnalysis st idToDelete).summarizedUserAustracUpdates = [] ∧
      (handleDeleteAnalysis st idToDelete).currentInputsForChallenge = ⟨[], []⟩ ∧
      (handleDeleteAnalysis st idToDelete).fetchStatus = .idle ∧
      (handleDeleteAnalysis st idToDelete).deepDiveResult = none ∧
      (handleDeleteAnalysis st idToDelete).selectedDocForDeepDiveId = none ∧
      (handleDeleteAnalysis st idToDelete).deepDiveGroundingMetadata = none ∧
      (handleDeleteAnalysis st idToDelete).deepDiveFetchStatus = .idle ∧
      (handleDeleteAnalysis st idToDelete).currentAnalysisPrompts = none) ∧
    (∀ sa ∈ (handleDeleteAnalysis st idToDelete).savedAnalyses, sa.id ≠ idToDelete) ∧
    (∀ sa ∈ st.savedAnalyses, sa.id ≠ idToDelete →
      sa ∈ (handleDeleteAnalysis st idToDelete).savedAnalyses) ∧
    ((st.activeAnalysisId = none ∨
        ∃ a ∈ st.savedAnalyses, st.activeAnalysisId = some a.id) →
      (∀ a ∈ st.savedAnalyses, a.id ≠ idToDelete) →
      handleDeleteAnalysis st idToDelete = st) := by
  refine ⟨?_, ?_, ?_, ?_⟩
  · intro hact
    simp [handleDeleteAnalysis, hact]
  · intro sa hsa
    have : sa ∈ (st.savedAnalyses.filter (fun sa => sa.id != idToDelete)) := by
      by_cases hact : st.activeAnalysisId = some idToDelete <;>
        simpa [handleDeleteAnalysis, hact] using hsa
    simpa using (List.of_mem_filter this)
  · intro sa hsa hne
    by_cases hact : st.activeAnalysisId = some idToDelete <;>
      simp [handleDeleteAnalysis, hact, List.mem_filter, hsa, hne]
  · intro hinv habs
    have hfilter : st.savedAnalyses.filter (fun sa => sa.id != idToDelete) = st.savedAnalyses :=
      List.filter_eq_self.mpr (fun a ha => by simpa using habs a ha)
    have hact : ¬ st.activeAnalysisId = some idToDelete := by
      rcases hinv with h | ⟨a, ha, heq⟩
      · simp [h]
      · rw [heq]
        simpa using fun hcontra => habs a ha hcontra
    simp [handleDeleteAnalysis, hact, hfilter]

/-- Witness for `deleteAnalysis_consistency`: deleting the active analysis
of a concrete one-element store clears the pointer and the store, and
deleting an absent id from the same state is a no-op. -/
theorem deleteAnalysis_consistency_witness :
    (handleDeleteAnalysis { stateSample with savedAnalyses := [analysisAdoptedOnly], activeAnalysisId := some "a1" } "a1").activeAnalysisId = none ∧
    handleDeleteAnalysis { stateSample with savedAnalyses := [analysisAdoptedOnly], activeAnalysisId := some "a1" } "zz"
      = { stateSample with savedAnalyses := [analysisAdoptedOnly], activeAnalysisId := some "a1" } := by
  constructor
  · exact ((deleteAnalysis_consistency _ "a1").1 rfl).2.1
  · exact (deleteAnalysis_consistency _ "zz").2.2.2
      (Or.inr ⟨analysisAdoptedOnly, by decide, rfl⟩) (by decide)

/-! ## C5: Gap Review validation -/

/-- **C5**: a Gap Review run with an empty target company document id list
or an empty target regulatory id list fails immediately with the user-facing
validation error, issues zero Generator and zero Retriever calls, persists
no `SavedAnalysis` (the store is untouched), and leaves the fetch state at
idle. -/
theorem gapReview_validation_short_circuits
    (targetRegulatoryIds companyDocIds : List String) (topK : Nat)
    (o : GapOracle) (st : AppState)
    (h : companyDocIds = [] ∨ targetRegulatoryIds = []) :
    (generateGapReview true targetRegulatoryIds companyDocIds topK o st).2 = [] ∧
    (generateGapReview true targetRegulatoryIds companyDocIds topK o st).1.savedAnalyses
        = st.savedAnalyses ∧
    (generateGapReview true targetRegulatoryIds companyDocIds topK o st).1.fetchStatus
        = .idle ∧
    (generateGapReview true targetRegulatoryIds companyDocIds topK o st).1.error
        = some "Please select at least one Company Document AND at least one Regulatory Input to target for the Gap Review." := by
  rcases h with h | h <;> subst h <;> simp [generateGapReview]

/-- Witness for `gapReview_validation_short_circuits` at the concrete sample
state with an empty company document selection. -/
theorem gapReview_validation_short_circuits_witness :
    (generateGapReview true ["r1"] [] 10 oracleSample stateSample).2 = [] ∧
    (generateGapReview true ["r1"] [] 10 oracleSample stateSample).1.savedAnalyses
        = stateSample.savedAnalyses ∧
    (generateGapReview true ["r1"] [] 10 oracleSample stateSample).1.fetchStatus
        = .idle ∧
    (generateGapReview true ["r1"] [] 10 oracleSample stateSample).1.error
        = some "Please select at least one Company Document AND at least one Regulatory Input to target for the Gap Review." :=
  gapReview_validation_short_circuits ["r1"] [] 10 oracleSample stateSample (Or.inl rfl)

/-! ## C7: grouped-suggestions partition invariant -/

theorem groupInsert_keys_eq {m : List (String × List SuggestedChange)}
    {k : String} {c : SuggestedChange}
    (hany : (m.any fun kv => kv.1 == k) = true) :
    (groupInsert m k c).map Prod.fst = m.map Prod.fst := by
  unfold groupInsert
  rw [if_pos hany, List.map_map]
  refine List.map_congr_left (fun kv _ => ?_)
  simp only [Function.comp_apply]
  by_cases hkv : (kv.1 == k) = true
  · rw [if_pos hkv]
  · rw [if_neg hkv]

theorem groupInsert_keys_nodup {m : List (String × List SuggestedChange)}
    {k : String} {c : SuggestedChange} (h : (m.map Prod.fst).Nodup) :
    ((groupInsert m k c).map Prod.fst).Nodup := by
  by_cases hany : (m.any fun kv => kv.1 == k) = true
  · rw [groupInsert_keys_eq hany]; exact h
  · unfold groupInsert
    rw [if_neg hany]
    have hk : k ∉ m.map Prod.fst := by
      intro hmem
      rcases List.mem_map.mp hmem with ⟨kv, hkv, hfst⟩
      exact hany (List.any_eq_true.mpr ⟨kv, hkv, beq_iff_eq.mpr hfst⟩)
    simp [List.nodup_append, h, hk]

theorem groupInsert_keyed {m : List (String × List SuggestedChange)}
    {k : String} {c : SuggestedChange}
    (hm : ∀ kv ∈ m, ∀ x ∈ kv.2, groupNameOf x = kv.1)
    (hc : groupNameOf c = k) :
    ∀ kv ∈ groupInsert m k c, ∀ x ∈ kv.2, groupNameOf x = kv.1 := by
  unfold groupInsert
  by_cases h : m.any (fun kv => kv.1 == k)
  · rw [if_pos h]
    intro kv hkv x hx
    rcases List.mem_map.mp hkv with ⟨kv0, hkv0, hmap⟩
    by_cases hk0 : kv0.1 == k
    · rw [if_pos hk0] at hmap
      subst hmap
      simp only at hx ⊢
      rcases List.mem_append.mp hx with hx | hx
      · exact hm kv0 hkv0 x hx
      · have : x = c := by simpa using hx
        subst this
        rw [hc]
        exact (beq_iff_eq.mp hk0).symm
    · rw [if_neg hk0] at hmap
      subst hmap
      exact hm kv0 hkv0 x hx
  · rw [if_neg h]
    intro kv hkv x hx
    rcases List.mem_append.mp hkv with hkv | hkv
    · exact hm kv hkv x hx
    · have : kv = (k, [c]) := by simpa using hkv
      subst this
      have : x = c := by simpa using hx
      subst this
      exact hc

theorem groupInsert_sum {m : List (String × List SuggestedChange)}
    {k : String} {c : SuggestedChange} (h : (m.map Prod.fst).Nodup) :
    ((groupInsert m k c).map (fun kv => kv.2.length)).sum
      = ((m.map (fun kv => kv.2.length)).sum) + 1 := by
  induction m with
  | nil => simp [groupInsert]
  | cons kv0 m' ih =>
    have hcons : (kv0.1 :: m'.map Prod.fst).Nodup := by simpa using h
    have hnotin : kv0.1 ∉ m'.map Prod.fst := (List.nodup_cons.mp hcons).1
    have hnodup' : (m'.map Prod.fst).Nodup := (List.nodup_cons.mp hcons).2
    by_cases hk0 : (kv0.1 == k) = true
    · have hany : ((kv0 :: m').any fun kv => kv.1 == k) = true := by
        simp [List.any_cons, hk0]
      have hknotin : ∀ kv ∈ m', ¬ ((kv.1 == k) = true) := by
        intro kv hkv hbeq
        exact hnotin (by
          rw [beq_iff_eq.mp hk0, ← beq_iff_eq.mp hbeq]
          exact List.mem_map_of_mem Prod.fst hkv)
      have hmap : m'.map (fun kv => if kv.1 == k then (kv.1, kv.2 ++ [c]) else kv) = m' := by
        conv_rhs => rw [← List.map_id m']
        exact List.map_congr_left (fun kv hkv => by rw [if_neg (hknotin kv hkv)]; rfl)
      unfold groupInsert
      rw [if_pos hany, List.map_cons, if_pos hk0, hmap]
      simp only [List.map_cons, List.sum_cons, List.length_append, List.length_cons,
        List.length_nil]
      omega
    · by_cases hany' : (m'.any fun kv => kv.1 == k) = true
      · have hany : ((kv0 :: m').any fun kv => kv.1 == k) = true := by
          simp [List.any_cons, hany']
        have hsub : groupInsert m' k c
            = m'.map (fun kv => if kv.1 == k then (kv.1, kv.2 ++ [c]) else kv) := by
          unfold groupInsert
          rw [if_pos hany']
        unfold groupInsert
        rw [if_pos hany, List.map_cons, if_neg hk0]
        have hihr := ih hnodup'
        rw [hsub] at hihr
        simp only [List.map_cons, List.sum_cons, hihr]
        omega
      · have h1 : (kv0.1 == k) = false := by
          cases hb : (kv0.1 == k) with
          | false => rfl
          | true => exact absurd hb hk0
        have h2 : (m'.any fun kv => kv.1 == k) = false := by
          cases hb : (m'.any fun kv => kv.1 == k) with
          | false => rfl
          | true => exact absurd hb hany'
        have hany : ¬ (((kv0 :: m').any fun kv => kv.1 == k) = true) := by
          simp [List.any_cons, h1, h2]
        unfold groupInsert
        rw [if_neg hany]
        simp only [List.map_append, List.map_cons, List.sum_append, List.sum_cons,
          List.map_nil, List.sum_nil, List.length_cons, List.length_nil]
        omega

theorem groupInsert_mem_mono {m : List (String × List SuggestedChange)}
    {k : String} {c x : SuggestedChange}
    (hx : ∃ kv ∈ m, x ∈ kv.2) : ∃ kv ∈ groupInsert m k c, x ∈ kv.2 := by
  rcases hx with ⟨kv, hkv, hx⟩
  unfold groupInsert
  by_cases h : m.any (fun kv => kv.1 == k)
  · rw [if_pos h]
    refine ⟨if kv.1 == k then (kv.1, kv.2 ++ [c]) else kv, List.mem_map_of_mem _ hkv, ?_⟩
    by_cases hk : kv.1 == k <;> simp [hk, hx]
  · rw [if_neg h]
    exact ⟨kv, List.mem_append_left _ hkv, hx⟩

theorem groupInsert_mem_self {m : List (String × List SuggestedChange)}
    {k : String} {c : SuggestedChange} : ∃ kv ∈ groupInsert m k c, c ∈ kv.2 := by
  unfold groupInsert
  by_cases h : m.any (fun kv => kv.1 == k)
  · rw [if_pos h]
    rcases List.any_eq_true.mp h with ⟨kv, hkv, hbeq⟩
    refine ⟨(kv.1, kv.2 ++ [c]), ?_, by simp⟩
    have : (kv.1, kv.2 ++ [c]) = if kv.1 == k then (kv.1, kv.2 ++ [c]) else kv := by
      rw [if_pos hbeq]
    rw [this]
    exact List.mem_map_of_mem _ hkv
  · rw [if_neg h]
    exact ⟨(k, [c]), List.mem_append_right _ (by simp), by simp⟩

theorem groupFold_invariant (cs : List SuggestedChange) :
    ∀ m : List (String × List SuggestedChange),
    (m.map Prod.fst).Nodup →
    (∀ kv ∈ m, ∀ x ∈ kv.2, groupNameOf x = kv.1) →
    (((cs.foldl (fun m c => groupInsert m (groupNameOf c) c) m).map Prod.fst).Nodup ∧
     (∀ kv ∈ cs.foldl (fun m c => groupInsert m (groupNameOf c) c) m,
        ∀ x ∈ kv.2, groupNameOf x = kv.1) ∧
     ((cs.foldl (fun m c => groupInsert m (groupNameOf c) c) m).map
        (fun kv => kv.2.length)).sum
        = (m.map (fun kv => kv.2.length)).sum + cs.length ∧
     (∀ x, (∃ kv ∈ m, x ∈ kv.2) →
        ∃ kv ∈ cs.foldl (fun m c => groupInsert m (groupNameOf c) c) m, x ∈ kv.2) ∧
     (∀ c ∈ cs,
        ∃ kv ∈ cs.foldl (fun m c => groupInsert m (groupNameOf c) c) m, c ∈ kv.2)) := by
  induction cs with
  | nil => intro m h1 h2; exact ⟨h1, h2, by simp, fun x hx => hx, by simp⟩
  | cons c cs ih =>
    intro m h1 h2
    have h1' := @groupInsert_keys_nodup m (groupNameOf c) c h1
    have h2' := groupInsert_keyed (m := m) (k := groupNameOf c) (c := c) h2 rfl
    rcases ih (groupInsert m (groupNameOf c) c) h1' h2' with ⟨i1, i2, i3, i4, i5⟩
    refine ⟨i1, i2, ?_, ?_, ?_⟩
    · simp only [List.foldl_cons, List.length_cons]
      rw [i3, groupInsert_sum h1]
      omega
    · intro x hx
      simpa using i4 x (groupInsert_mem_mono hx)
    · intro c' hc'
      rcases List.mem_cons.mp hc' with rfl | hc'
      · simpa using i4 c' groupInsert_mem_self
      · simpa using i5 c' hc'

/-- **C7**: whenever a Gap Review run displays a result, its
`groupedSuggestions` partitions exactly the flat `suggested_changes` list —
group keys are distinct, every member of a group is a suggested change whose
`source_document_name` (with default `"General"` when absent) equals the
group key, every suggested change is in some group, and the sum of all group
sizes equals the length of the flat list. -/
theorem gapReview_groupedSuggestions_partition
    (targetRegulatoryIds companyDocIds : List String) (topK : Nat) (o : GapOracle)
    (st : AppState) (r : ChallengeAnalysisResult)
    (h1 : targetRegulatoryIds ≠ []) (h2 : companyDocIds ≠ [])
    (hr : (generateGapReview true targetRegulatoryIds companyDocIds topK o st).1.challengeResult
        = some r) :
    ∃ groups, r.groupedSuggestions = some groups ∧
      (groups.map (fun kv => kv.2.length)).sum = r.suggested_changes.length ∧
      (groups.map Prod.fst).Nodup ∧
      (∀ kv ∈ groups, ∀ c ∈ kv.2,
        strOrDefault c.source_document_name "General" = kv.1) ∧
      (∀ c ∈ r.suggested_changes, ∃ kv ∈ groups, c ∈ kv.2) := by
  unfold generateGapReview at hr
  rw [if_neg (by simp)] at hr
  rw [if_neg (by simp [List.length_eq_zero, h1, h2])] at hr
  simp only at hr
  split at hr
  · exfalso
    revert hr
    split <;> simp [ingestAllUnprocessed]
  · next scs aps heq =>
    have hrec := hr
    revert hrec
    split <;>
    · simp only [ingestAllUnprocessed]
      intro hrec
      have hr' := Option.some.inj hrec
      subst hr'
      rcases groupFold_invariant
          (scs.mapIdx (fun i cj => postProcessChange o.now o.uid i cj)) [] (by simp) (by simp)
        with ⟨i1, i2, i3, i4, i5⟩
      exact ⟨_, rfl, by simpa using i3, i1, fun kv hkv x hx => i2 kv hkv x hx, i5⟩

/-- Witness for `gapReview_groupedSuggestions_partition` at the sample state
with `oracleTiny`. -/
theorem gapReview_groupedSuggestions_partition_witness :
    ∃ groups,
      (ChallengeAnalysisResult.mk [changeTiny] [] (some [("General", [changeTiny])])).groupedSuggestions = some groups ∧
      (groups.map (fun kv => kv.2.length)).sum
        = (ChallengeAnalysisResult.mk [changeTiny] [] (some [("General", [changeTiny])])).suggested_changes.length ∧
      (groups.map Prod.fst).Nodup ∧
      (∀ kv ∈ groups, ∀ c ∈ kv.2,
        strOrDefault c.source_document_name "General" = kv.1) ∧
      (∀ c ∈ (ChallengeAnalysisResult.mk [changeTiny] [] (some [("General", [changeTiny])])).suggested_changes,
        ∃ kv ∈ groups, c ∈ kv.2) :=
  gapReview_groupedSuggestions_partition ["r1"] ["d1"] 10 oracleTiny stateSample
    (ChallengeAnalysisResult.mk [changeTiny] [] (some [("General", [changeTiny])]))
    (by decide) (by decide) (by decide)

/-! ## C6: chunk filtering discipline -/

/-- **C6**: in the Gap Review prompt composition, a retrieved chunk
contributes to the regulatory context section only if its `documentType` is
the regulatory type (`"austrac"`) and its `documentId` is among the
explicitly targeted regulatory ids, and to the company context section only
if its `documentType` is `"company"` and its `documentId` is among the
targeted company document ids; a chunk about an untargeted document appears
in neither section even when the Retriever returned it. -/
theorem gapReview_chunk_filtering_discipline
    (relevantChunks : List DocumentChunk) (userAustracContent : List AustracUpdate)
    (internalCorpus : List CompanyDocument)
    (targetRegulatoryIds companyDocIds : List String) (c : DocumentChunk) :
    (c ∈ regulatoryContextChunks relevantChunks
        (userAustracContent.filter (fun d => targetRegulatoryIds.contains d.id)) →
      c.documentType = "austrac" ∧ c.documentId ∈ targetRegulatoryIds ∧ c ∈ relevantChunks) ∧
    (c ∈ companyContextChunks relevantChunks
        (internalCorpus.filter (fun d => companyDocIds.contains d.id)) →
      c.documentType = "company" ∧ c.documentId ∈ companyDocIds ∧ c ∈ relevantChunks) ∧
    (c.documentId ∉ targetRegulatoryIds → c.documentId ∉ companyDocIds →
      c ∉ regulatoryContextChunks relevantChunks
        (userAustracContent.filter (fun d => targetRegulatoryIds.contains d.id)) ∧
      c ∉ companyContextChunks relevantChunks
        (internalCorpus.filter (fun d => companyDocIds.contains d.id))) := by
  have hreg : c ∈ regulatoryContextChunks relevantChunks
      (userAustracContent.filter (fun d => targetRegulatoryIds.contains d.id)) →
      c.documentType = "austrac" ∧ c.documentId ∈ targetRegulatoryIds ∧ c ∈ relevantChunks := by
    intro h
    rcases List.mem_filter.mp h with ⟨hmem, hpred⟩
    simp only [Bool.and_eq_true, beq_iff_eq, List.any_eq_true] at hpred
    rcases hpred with ⟨htype, d, hd, hid⟩
    rcases List.mem_filter.mp hd with ⟨_, hdid⟩
    refine ⟨htype, ?_, hmem⟩
    rw [← hid]
    simpa using hdid
  have hcom : c ∈ companyContextChunks relevantChunks
      (internalCorpus.filter (fun d => companyDocIds.contains d.id)) →
      c.documentType = "company" ∧ c.documentId ∈ companyDocIds ∧ c ∈ relevantChunks := by
    intro h
    rcases List.mem_filter.mp h with ⟨hmem, hpred⟩
    simp only [Bool.and_eq_true, beq_iff_eq, List.any_eq_true] at hpred
    rcases hpred with ⟨htype, d, hd, hid⟩
    rcases List.mem_filter.mp hd with ⟨_, hdid⟩
    refine ⟨htype, ?_, hmem⟩
    rw [← hid]
    simpa using hdid
  refine ⟨hreg, hcom, fun hnr hnc => ⟨fun h => hnr (hreg h).2.1, fun h => hnc (hcom h).2.1⟩⟩

/-- Witness for `gapReview_chunk_filtering_discipline`: a chunk about an
untargeted document is excluded from both context sections. -/
theorem gapReview_chunk_filtering_discipline_witness :
    (⟨"c2", "r2", "Reg 2", "austrac", "untargeted", [], 10⟩ : DocumentChunk) ∉
      regulatoryContextChunks oracleSample.retrieved
        (stateSample.userAustracContent.filter (fun d => (["r1"] : List String).contains d.id)) ∧
    (⟨"c2", "r2", "Reg 2", "austrac", "untargeted", [], 10⟩ : DocumentChunk) ∉
      companyContextChunks oracleSample.retrieved
        (stateSample.internalCorpus.filter (fun d => (["d1"] : List String).contains d.id)) :=
  (gapReview_chunk_filtering_discipline oracleSample.retrieved
      stateSample.userAustracContent stateSample.internalCorpus ["r1"] ["d1"]
      ⟨"c2", "r2", "Reg 2", "austrac", "untargeted", [], 10⟩).2.2
    (by decide) (by decide)

/-! ## C8: mergeFeedback round-trip and frame -/

theorem mergeAnalysisFeedback_id (sa : SavedAnalysis) (p : ResultPatch) (now : Nat) :
    (mergeAnalysisFeedback sa p now).id = sa.id := by
  unfold mergeAnalysisFeedback
  split <;> split <;> rfl

theorem updateFun_id (analysisIdToUpdate : String) (p : ResultPatch) (now : Nat)
    (sa : SavedAnalysis) :
    ((fun sa => if sa.id = analysisIdToUpdate then mergeAnalysisFeedback sa p now else sa) sa).id
      = sa.id := by
  by_cases h : sa.id = analysisIdToUpdate
  · simp only [if_pos h]
    exact mergeAnalysisFeedback_id sa p now
  · simp only [if_neg h]

theorem find_eq_of_nodup :
    ∀ {l : List SavedAnalysis} {x : SavedAnalysis} {id : String},
    (l.map (fun sa => sa.id)).Nodup → x ∈ l → x.id = id →
    l.find? (fun sa => sa.id == id) = some x := by
  intro l
  induction l with
  | nil => intro x id _ hx _; cases hx
  | cons a t ih =>
    intro x id hnd hx hid
    have hcons : (a.id :: t.map (fun sa => sa.id)).Nodup := by simpa using hnd
    rcases List.mem_cons.mp hx with rfl | hx'
    · rw [List.find?_cons_of_pos _ (by simp [hid])]
    · by_cases ha : a.id = id
      · exfalso
        have hmem : x.id ∈ t.map (fun sa => sa.id) := List.mem_map_of_mem _ hx'
        rw [hid, ← ha] at hmem
        exact (List.nodup_cons.mp hcons).1 hmem
      · rw [List.find?_cons_of_neg _ (by simp [ha])]
        exact ih (List.nodup_cons.mp hcons).2 hx' hid

theorem updateFeedback_ids (analyses : List SavedAnalysis) (id : String)
    (p : ResultPatch) (now : Nat) :
    (analyses.map (fun sa => if sa.id = id then mergeAnalysisFeedback sa p now else sa)).map
        (fun sa => sa.id)
      = analyses.map (fun sa => sa.id) := by
  rw [List.map_map]
  exact List.map_congr_left (fun sa _ => updateFun_id id p now sa)

theorem updateFeedback_perm (analyses : List SavedAnalysis) (id : String)
    (p : ResultPatch) (now : Nat) :
    (updateFeedbackInSavedAnalyses analyses id p now).Perm
      (analyses.map (fun sa => if sa.id = id then mergeAnalysisFeedback sa p now else sa)) := by
  unfold updateFeedbackInSavedAnalyses sortByTimestampDesc
  exact List.perm_insertionSort _ _

theorem updateFeedback_ids_nodup (analyses : List SavedAnalysis) (id : String)
    (p : ResultPatch) (now : Nat)
    (hnd : (analyses.map (fun sa => sa.id)).Nodup) :
    ((updateFeedbackInSavedAnalyses analyses id p now).map (fun sa => sa.id)).Nodup := by
  have hperm := (updateFeedback_perm analyses id p now).map (fun sa => sa.id)
  rw [updateFeedback_ids] at hperm
  exact hperm.nodup_iff.mpr hnd

/-- **C8**: shallow-merging a partial result into a stored analysis and
reading it back yields the analysis with the merged fields taking the
patch's values and every field absent from the patch preserved (via
`Option.getD`), with a refreshed timestamp and all other `SavedAnalysis`
fields intact; every other analysis reads back exactly as before; and the
store is sorted by timestamp descending afterwards. -/
theorem mergeFeedback_roundtrip_and_frame (analyses : List SavedAnalysis)
    (id : String) (p : ResultPatch) (now : Nat) (sa : SavedAnalysis)
    (hnd : (analyses.map (fun sa => sa.id)).Nodup)
    (hget : getAnalysis analyses id = some sa)
    (hwf : (sa.analysisType = .challenge → sa.challengeAnalysisResult.isSome) ∧
           (sa.analysisType = .deepDive → sa.deepDiveAnalysisResult.isSome)) :
    (sa.analysisType = .challenge → ∃ old, sa.challengeAnalysisResult = some old ∧
      getAnalysis (updateFeedbackInSavedAnalyses analyses id p now) id
        = some { sa with timestamp := now, challengeAnalysisResult := some (ChallengeAnalysisResult.mk (p.suggested_changes.getD old.suggested_changes) (p.action_plan.getD old.action_plan) (p.groupedSuggestions.getD old.groupedSuggestions)) }) ∧
    (sa.analysisType = .deepDive → ∃ old, sa.deepDiveAnalysisResult = some old ∧
      getAnalysis (updateFeedbackInSavedAnalyses analyses id p now) id
        = some { sa with timestamp := now, deepDiveAnalysisResult := some (DeepDiveAnalysisResult.mk (p.documentTitleAnalyzed.getD old.documentTitleAnalyzed) (p.overallSummary.getD old.overallSummary) (p.keyThemesAndTopics.getD old.keyThemesAndTopics) (p.suggested_changes.getD old.suggested_changes) (p.action_plan.getD old.action_plan) (p.additionalObservations.getD old.additionalObservations) (p.referencedRegulatoryInputs.getD old.referencedRegulatoryInputs)) }) ∧
    (∀ id2, id2 ≠ id →
      getAnalysis (updateFeedbackInSavedAnalyses analyses id p now) id2
        = getAnalysis analyses id2) ∧
    List.Pairwise (fun a b => b.timestamp ≤ a.timestamp)
      (updateFeedbackInSavedAnalyses analyses id p now) := by
  have hsaid : sa.id = id := by
    have := List.find?_some hget
    simpa using this
  have hsamem : sa ∈ analyses := List.mem_of_find?_eq_some hget
  have hnd' := updateFeedback_ids_nodup analyses id p now hnd
  have hperm := updateFeedback_perm analyses id p now
  have hmergedmem : mergeAnalysisFeedback sa p now ∈ updateFeedbackInSavedAnalyses analyses id p now := by
    rw [hperm.mem_iff]
    have : mergeAnalysisFeedback sa p now
        = (fun sa => if sa.id = id then mergeAnalysisFeedback sa p now else sa) sa := by
      simp [if_pos hsaid]
    rw [this]
    exact List.mem_map_of_mem _ hsamem
  have hfindmerged : getAnalysis (updateFeedbackInSavedAnalyses analyses id p now) id
      = some (mergeAnalysisFeedback sa p now) := by
    unfold getAnalysis
    exact find_eq_of_nodup hnd' hmergedmem (by rw [mergeAnalysisFeedback_id, hsaid])
  refine ⟨?_, ?_, ?_, ?_⟩
  · intro htype
    rcases Option.isSome_iff_exists.mp (hwf.1 htype) with ⟨old, hold⟩
    refine ⟨old, hold, ?_⟩
    rw [hfindmerged]
    unfold mergeAnalysisFeedback
    rw [htype, hold]
    rfl
  · intro htype
    rcases Option.isSome_iff_exists.mp (hwf.2 htype) with ⟨old, hold⟩
    refine ⟨old, hold, ?_⟩
    rw [hfindmerged]
    unfold mergeAnalysisFeedback
    rw [htype, hold]
    rfl
  · intro id2 hne
    cases hfind : getAnalysis analyses id2 with
    | none =>
      have hall := List.find?_eq_none.mp hfind
      unfold getAnalysis
      apply List.find?_eq_none.mpr
      intro y hy
      rw [hperm.mem_iff] at hy
      rcases List.mem_map.mp hy with ⟨x, hx, hxy⟩
      have hyid : y.id = x.id := by rw [← hxy]; exact updateFun_id id p now x
      simpa [hyid] using hall x hx
    | some y =>
      have hyid : y.id = id2 := by
        have := List.find?_some hfind
        simpa using this
      have hymem : y ∈ analyses := List.mem_of_find?_eq_some hfind
      have hyne : ¬ (y.id = id) := by
        rw [hyid]
        exact hne
      have hyfix : (fun sa => if sa.id = id then mergeAnalysisFeedback sa p now else sa) y = y := by
        simp only [if_neg hyne]
      unfold getAnalysis
      apply find_eq_of_nodup hnd' _ hyid
      rw [hperm.mem_iff, ← hyfix]
      exact List.mem_map_of_mem _ hymem
  · unfold updateFeedbackInSavedAnalyses sortByTimestampDesc
    haveI : IsTotal SavedAnalysis (fun a b => b.timestamp ≤ a.timestamp) :=
      ⟨fun a b => Nat.le_total b.timestamp a.timestamp⟩
    haveI : IsTrans SavedAnalysis (fun a b => b.timestamp ≤ a.timestamp) :=
      ⟨fun _ _ _ hab hbc => Nat.le_trans hbc hab⟩
    exact List.sorted_insertionSort _ _

/-- Witness for `mergeFeedback_roundtrip_and_frame` at a concrete
one-element store and a patch replacing only the action plan. -/
theorem mergeFeedback_roundtrip_and_frame_witness :
    ∃ old, analysisAdoptedOnly.challengeAnalysisResult = some old ∧
      getAnalysis (updateFeedbackInSavedAnalyses [analysisAdoptedOnly] "a1" patchSample 200) "a1"
        = some { analysisAdoptedOnly with timestamp := 200, challengeAnalysisResult := some (ChallengeAnalysisResult.mk (patchSample.suggested_changes.getD old.suggested_changes) (patchSample.action_plan.getD old.action_plan) (patchSample.groupedSuggestions.getD old.groupedSuggestions)) } :=
  (mergeFeedback_roundtrip_and_frame [analysisAdoptedOnly] "a1" patchSample 200
      analysisAdoptedOnly (by decide) (by decide) (by decide)).1 rfl

/-! ## C1: feedback learning qualification -/

theorem qualifiesAsLearning_iff (fb : UserFeedback) :
    qualifiesAsLearning fb = true ↔
      (optTruthy fb.status = true ∧
        (fb.status = some "Actioned" ∨ optTruthy fb.finalAdoptedText = true ∨
          (fb.status = some "Not Applicable" ∧ optTruthy fb.notes = true ∧
            jsTrim (fb.notes.getD "") ≠ ""))) := by
  unfold qualifiesAsLearning
  simp only [Bool.and_eq_true, Bool.or_eq_true, beq_iff_eq, bne_iff_ne, ne_eq]
  tauto

theorem extractFromChanges_none (a : SavedAnalysis) :
    ∀ (cs : List SuggestedChange) (acc : List String),
    extractFromChanges a none cs acc
      = acc ++ cs.filterMap (fun c =>
          match c.userFeedback with
          | some fb =>
            if qualifiesAsLearning fb then some (formatLearning a c fb) else none
          | none => none) := by
  intro cs
  induction cs with
  | nil => intro acc; simp [extractFromChanges]
  | cons c cs ih =>
    intro acc
    unfold extractFromChanges
    have hcap : capReached none acc = false := rfl
    rw [hcap]
    simp only [Bool.false_eq_true, if_false]
    cases hfb : c.userFeedback with
    | none => simp [List.filterMap_cons, hfb, ih]
    | some fb =>
      by_cases hq : qualifiesAsLearning fb = true
      · simp [List.filterMap_cons, hfb, hq, ih, List.append_assoc]
      · simp [List.filterMap_cons, hfb, hq, ih]

theorem extractFromAnalyses_none :
    ∀ (l : List SavedAnalysis) (acc : List String),
    extractFromAnalyses none l acc
      = acc ++ l.flatMap (fun a => (scannedChanges a).filterMap (fun c =>
          match c.userFeedback with
          | some fb =>
            if qualifiesAsLearning fb then some (formatLearning a c fb) else none
          | none => none)) := by
  intro l
  induction l with
  | nil => intro acc; simp [extractFromAnalyses]
  | cons a rest ih =>
    intro acc
    unfold extractFromAnalyses
    have hcap : ∀ acc2 : List String, capReached none acc2 = false := fun _ => rfl
    simp only [hcap, Bool.false_eq_true, if_false]
    rw [extractFromChanges_none, ih]
    simp [List.append_assoc]

/-- **C1** (amended): for every list of saved analyses, the learning string
of a feedback item attached to a suggested change appears in the extracted
learnings iff the item's status is set and non-empty AND (the status is
`"Actioned"`, OR `finalAdoptedText` is non-empty, OR the status is
`"Not Applicable"` with notes non-empty after trimming). In particular an
item with status `"Pending Review"` and no notes or adopted text is never
included, and — against the original claim — an item with a non-empty
`finalAdoptedText` but no status label is not included either. -/
theorem extractLearnings_qualification (analyses : List SavedAnalysis) (s : String) :
    s ∈ extractLearningsFromFeedback analyses none ↔
      ∃ a ∈ analyses, ∃ c ∈ scannedChanges a, ∃ fb,
        c.userFeedback = some fb ∧
        optTruthy fb.status = true ∧
        (fb.status = some "Actioned" ∨ optTruthy fb.finalAdoptedText = true ∨
          (fb.status = some "Not Applicable" ∧ optTruthy fb.notes = true ∧
            jsTrim (fb.notes.getD "") ≠ "")) ∧
        s = formatLearning a c fb := by
  unfold extractLearningsFromFeedback
  rw [extractFromAnalyses_none]
  simp only [List.nil_append]
  rw [List.mem_flatMap]
  have hperm : ∀ a : SavedAnalysis,
      a ∈ sortByTimestampDesc analyses ↔ a ∈ analyses := fun a =>
    (List.perm_insertionSort _ analyses).mem_iff
  constructor
  · rintro ⟨a, ha, hmem⟩
    rcases List.mem_filterMap.mp hmem with ⟨c, hc, hfc⟩
    cases hfb : c.userFeedback with
    | none =>
      rw [hfb] at hfc
      have hfc' : (none : Option String) = some s := hfc
      cases hfc'
    | some fb =>
      rw [hfb] at hfc
      have hfc' : (if qualifiesAsLearning fb = true then some (formatLearning a c fb)
          else none) = some s := hfc
      by_cases hq : qualifiesAsLearning fb = true
      · rw [if_pos hq] at hfc'
        rcases (qualifiesAsLearning_iff fb).mp hq with ⟨hq1, hq2⟩
        exact ⟨a, (hperm a).mp ha, c, hc, fb, hfb, hq1, hq2, (Option.some.inj hfc').symm⟩
      · rw [if_neg hq] at hfc'; cases hfc'
  · rintro ⟨a, ha, c, hc, fb, hfb, h1, h2, hs⟩
    refine ⟨a, (hperm a).mpr ha, List.mem_filterMap.mpr ⟨c, hc, ?_⟩⟩
    have hval : (if qualifiesAsLearning fb = true then some (formatLearning a c fb)
        else none) = some (formatLearning a c fb) :=
      if_pos ((qualifiesAsLearning_iff fb).mpr ⟨h1, h2⟩)
    rw [hfb, hs]
    exact hval

/-- **C1 counterexample**: a feedback item with a non-empty
`finalAdoptedText` but no status label qualifies under the claim's
condition, yet the source's extraction (whose guard first requires a truthy
status) returns no learning for it. -/
theorem extractLearnings_adopted_without_status_excluded :
    specQualifiesAsLearning fbAdoptedOnly = true ∧
    extractLearningsFromFeedback [analysisAdoptedOnly] none = [] :=
  ⟨by decide, by decide⟩

/-! ## C4: prompt learning selection -/

theorem learningMatchesDocs_iff (fragLower coreKey : String) (added : List String)
    (docNames : List String) :
    learningMatchesDocs fragLower coreKey added docNames = true ↔
      ((∃ name ∈ docNames, strIncludes fragLower (strLower name) = true) ∧
        coreKey ∉ added) := by
  induction docNames with
  | nil => simp [learningMatchesDocs]
  | cons n ns ih =>
    unfold learningMatchesDocs
    by_cases hinc : strIncludes fragLower (strLower n) = true
    · rw [if_pos hinc]
      by_cases hkey : added.contains coreKey = true
      · rw [if_pos hkey]
        have hmem : coreKey ∈ added := by simpa using hkey
        rw [ih]
        constructor
        · rintro ⟨_, hno⟩; exact absurd hmem hno
        · rintro ⟨_, hno⟩; exact absurd hmem hno
      · rw [if_neg hkey]
        have hno : coreKey ∉ added := by simpa using hkey
        simp only [true_iff]
        exact ⟨⟨n, List.mem_cons_self n ns, hinc⟩, hno⟩
    · rw [if_neg hinc]
      rw [ih]
      constructor
      · rintro ⟨⟨name, hn, hi⟩, hno⟩
        exact ⟨⟨name, List.mem_cons_of_mem n hn, hi⟩, hno⟩
      · rintro ⟨⟨name, hn, hi⟩, hno⟩
        rcases List.mem_cons.mp hn with rfl | hn'
        · exact absurd hi hinc
        · exact ⟨⟨name, hn', hi⟩, hno⟩

theorem selectLearningsGo_cons_cap {docNames : List String} {maxL : Nat}
    {l : String} {ls sel added : List String} (hcap : maxL ≤ sel.length) :
    selectLearningsGo docNames maxL (l :: ls) sel added = sel := by
  simp only [selectLearningsGo]
  rw [if_pos hcap]

theorem selectLearningsGo_cons_none {docNames : List String} {maxL : Nat}
    {l : String} {ls sel added : List String} (hcap : ¬ maxL ≤ sel.length)
    (hfrag : findRegardingFragment l.toList = none) :
    selectLearningsGo docNames maxL (l :: ls) sel added
      = selectLearningsGo docNames maxL ls sel added := by
  simp only [selectLearningsGo]
  rw [if_neg hcap, hfrag]

theorem selectLearningsGo_cons_some {docNames : List String} {maxL : Nat}
    {l : String} {ls sel added : List String} {frag : String}
    (hcap : ¬ maxL ≤ sel.length)
    (hfrag : findRegardingFragment l.toList = some frag) :
    selectLearningsGo docNames maxL (l :: ls) sel added
      = (if (frag != "") = true then
          (if learningMatchesDocs (strLower frag)
              (strLower frag ++ coreLearningContent l) added docNames = true then
            selectLearningsGo docNames maxL ls (sel ++ [l])
              (added ++ [strLower frag ++ coreLearningContent l])
          else selectLearningsGo docNames maxL ls sel added)
        else selectLearningsGo docNames maxL ls sel added) := by
  simp only [selectLearningsGo]
  rw [if_neg hcap, hfrag]

theorem selectLearningsGo_spec (docNames : List String) (maxL : Nat) :
    ∀ (ls sel added : List String),
    ∃ extra, selectLearningsGo docNames maxL ls sel added = sel ++ extra ∧
      extra.Sublist ls ∧
      (∀ l ∈ extra, ∃ frag, findRegardingFragment l.toList = some frag ∧ frag ≠ "" ∧
        ∃ name ∈ docNames, strIncludes (strLower frag) (strLower name) = true) ∧
      (selectLearningsGo docNames maxL ls sel added).length ≤ max sel.length maxL := by
  intro ls
  induction ls with
  | nil =>
    intro sel added
    exact ⟨[], by simp [selectLearningsGo], List.nil_sublist _, by simp,
      by simp [selectLearningsGo, Nat.le_max_left]⟩
  | cons l ls ih =>
    intro sel added
    by_cases hcap : maxL ≤ sel.length
    · refine ⟨[], ?_, List.nil_sublist _, by simp, ?_⟩
      · rw [selectLearningsGo_cons_cap hcap]
        simp
      · rw [selectLearningsGo_cons_cap hcap]
        exact Nat.le_max_left _ _
    · cases hfrag : findRegardingFragment l.toList with
      | none =>
        rw [selectLearningsGo_cons_none hcap hfrag]
        rcases ih sel added with ⟨extra, heq, hsub, hcond, hlen⟩
        exact ⟨extra, heq, hsub.cons l, hcond, hlen⟩
      | some frag =>
        rw [selectLearningsGo_cons_some hcap hfrag]
        by_cases hne : (frag != "") = true
        · rw [if_pos hne]
          by_cases hmatch : learningMatchesDocs (strLower frag)
              (strLower frag ++ coreLearningContent l) added docNames = true
          · rw [if_pos hmatch]
            rcases ih (sel ++ [l]) (added ++ [strLower frag ++ coreLearningContent l])
              with ⟨extra, heq, hsub, hcond, hlen⟩
            rcases (learningMatchesDocs_iff _ _ _ _).mp hmatch with ⟨⟨name, hnm, hinc⟩, _⟩
            refine ⟨l :: extra, by rw [heq]; simp, hsub.cons₂ l, ?_, ?_⟩
            · intro x hx
              rcases List.mem_cons.mp hx with rfl | hx'
              · exact ⟨frag, hfrag, by simpa using hne, name, hnm, hinc⟩
              · exact hcond x hx'
            · rw [heq] at hlen ⊢
              have h1 : (sel ++ [l]).length = sel.length + 1 := by simp
              rw [h1] at hlen
              have h2 : (sel.length + 1) ⊔ maxL = maxL := sup_eq_right.mpr (by omega)
              have h3 : sel.length ⊔ maxL = maxL := sup_eq_right.mpr (by omega)
              rw [h2] at hlen
              rw [h3]
              exact hlen
          · rw [if_neg hmatch]
            rcases ih sel added with ⟨extra, heq, hsub, hcond, hlen⟩
            exact ⟨extra, heq, hsub.cons l, hcond, hlen⟩
        · rw [if_neg hne]
          rcases ih sel added with ⟨extra, heq, hsub, hcond, hlen⟩
          exact ⟨extra, heq, hsub.cons l, hcond, hlen⟩

theorem selectLearningsGo_complete (docNames : List String) (maxL : Nat) :
    ∀ (ls sel added : List String),
    (∀ k ∈ added, ∃ l' ∈ sel, ∃ f', findRegardingFragment l'.toList = some f' ∧
        strLower f' ++ coreLearningContent l' = k) →
    ∀ l ∈ ls, ∀ frag,
    findRegardingFragment l.toList = some frag → frag ≠ "" →
    (∃ name ∈ docNames, strIncludes (strLower frag) (strLower name) = true) →
    (∃ l' ∈ selectLearningsGo docNames maxL ls sel added, ∃ f',
        findRegardingFragment l'.toList = some f' ∧
        strLower f' ++ coreLearningContent l' = strLower frag ++ coreLearningContent l) ∨
    maxL ≤ (selectLearningsGo docNames maxL ls sel added).length := by
  intro ls
  induction ls with
  | nil => intro sel added _ l hl; cases hl
  | cons l0 ls ih =>
    intro sel added hinv l hl frag hfrag hfragne hrel
    by_cases hcap : maxL ≤ sel.length
    · right
      rw [selectLearningsGo_cons_cap hcap]
      exact hcap
    · rcases List.mem_cons.mp hl with rfl | hl'
      · rw [selectLearningsGo_cons_some hcap hfrag,
          if_pos (show (frag != "") = true by simpa using hfragne)]
        by_cases hmatch : learningMatchesDocs (strLower frag)
            (strLower frag ++ coreLearningContent l) added docNames = true
        · rw [if_pos hmatch]
          left
          rcases selectLearningsGo_spec docNames maxL ls
              (sel ++ [l]) (added ++ [strLower frag ++ coreLearningContent l])
            with ⟨extra, heq, _, _, _⟩
          refine ⟨l, ?_, frag, hfrag, rfl⟩
          rw [heq]
          simp
        · rw [if_neg hmatch]
          have hkey : (strLower frag ++ coreLearningContent l) ∈ added := by
            by_contra hno
            exact hmatch ((learningMatchesDocs_iff _ _ _ _).mpr ⟨hrel, hno⟩)
          rcases hinv _ hkey with ⟨l', hl', f', hf', hkeq⟩
          left
          rcases selectLearningsGo_spec docNames maxL ls sel added
            with ⟨extra, heq, _, _, _⟩
          refine ⟨l', ?_, f', hf', hkeq⟩
          rw [heq]
          exact List.mem_append_left _ hl'
      · cases hfrag0 : findRegardingFragment l0.toList with
        | none =>
          rw [selectLearningsGo_cons_none hcap hfrag0]
          exact ih sel added hinv l hl' frag hfrag hfragne hrel
        | some frag0 =>
          rw [selectLearningsGo_cons_some hcap hfrag0]
          by_cases hne0 : (frag0 != "") = true
          · rw [if_pos hne0]
            by_cases hmatch0 : learningMatchesDocs (strLower frag0)
                (strLower frag0 ++ coreLearningContent l0) added docNames = true
            · rw [if_pos hmatch0]
              apply ih (sel ++ [l0]) (added ++ [strLower frag0 ++ coreLearningContent l0])
                _ l hl' frag hfrag hfragne hrel
              intro k hk
              rcases List.mem_append.mp hk with hk' | hk'
              · rcases hinv k hk' with ⟨l', hl2, f', hf', hkeq⟩
                exact ⟨l', List.mem_append_left _ hl2, f', hf', hkeq⟩
              · have hkval : k = strLower frag0 ++ coreLearningContent l0 := by
                  simpa using hk'
                exact ⟨l0, List.mem_append_right _ (by simp), frag0, hfrag0, hkval.symm⟩
            · rw [if_neg hmatch0]
              exact ih sel added hinv l hl' frag hfrag hfragne hrel
          · rw [if_neg hne0]
            exact ih sel added hinv l hl' frag hfrag hfragne hrel

/-- **C4** (amended): a learning is selected for the Gap Review prompt only
if its extracted `regarding '...'` fragment, lower-cased, contains (as a
substring) some target company document's name lower-cased — the
substring-of direction of the original claim does not hold; selected
learnings keep the original scan order (a sublist of the input), at most 7
are returned, and every matching learning is either represented in the
output by an entry with the same (fragment, core-payload) dedup key or the
cap of 7 was reached. The learning regarding `Policy A.pdf` is returned for
target `Policy A.pdf` and excluded for target `Policy B.pdf`. -/
theorem selectLearnings_characterization
    (allPotentialLearnings docNames : List String) :
    (∀ l ∈ selectContextualLearningsForChallengePrompt allPotentialLearnings docNames 7,
        l ∈ allPotentialLearnings ∧
        ∃ frag, findRegardingFragment l.toList = some frag ∧ frag ≠ "" ∧
          ∃ name ∈ docNames, strIncludes (strLower frag) (strLower name) = true) ∧
    (selectContextualLearningsForChallengePrompt
        allPotentialLearnings docNames 7).Sublist allPotentialLearnings ∧
    (selectContextualLearningsForChallengePrompt
        allPotentialLearnings docNames 7).length ≤ 7 ∧
    (docNames ≠ [] → ∀ l ∈ allPotentialLearnings, ∀ frag,
        findRegardingFragment l.toList = some frag → frag ≠ "" →
        (∃ name ∈ docNames, strIncludes (strLower frag) (strLower name) = true) →
        (∃ l' ∈ selectContextualLearningsForChallengePrompt allPotentialLearnings docNames 7,
            ∃ f', findRegardingFragment l'.toList = some f' ∧
              strLower f' ++ coreLearningContent l'
                = strLower frag ++ coreLearningContent l) ∨
        7 ≤ (selectContextualLearningsForChallengePrompt
            allPotentialLearnings docNames 7).length) ∧
    (selectContextualLearningsForChallengePrompt [learningPolicyA] ["Policy A.pdf"] 7
        = [learningPolicyA] ∧
     selectContextualLearningsForChallengePrompt [learningPolicyA] ["Policy B.pdf"] 7
        = []) := by
  have hmain : ∀ l ∈ selectContextualLearningsForChallengePrompt
      allPotentialLearnings docNames 7,
      l ∈ allPotentialLearnings ∧
      ∃ frag, findRegardingFragment l.toList = some frag ∧ frag ≠ "" ∧
        ∃ name ∈ docNames, strIncludes (strLower frag) (strLower name) = true := by
    intro l hl
    unfold selectContextualLearningsForChallengePrompt at hl
    split at hl
    · cases hl
    · rcases selectLearningsGo_spec docNames 7 allPotentialLearnings [] []
        with ⟨extra, heq, hsub, hcond, _⟩
      rw [heq, List.nil_append] at hl
      exact ⟨hsub.mem hl, hcond l hl⟩
  refine ⟨hmain, ?_, ?_, ?_, by decide, by decide⟩
  · unfold selectContextualLearningsForChallengePrompt
    split
    · exact List.nil_sublist _
    · rcases selectLearningsGo_spec docNames 7 allPotentialLearnings [] []
        with ⟨extra, heq, hsub, _, _⟩
      rw [heq, List.nil_append]
      exact hsub
  · unfold selectContextualLearningsForChallengePrompt
    split
    · simp
    · rcases selectLearningsGo_spec docNames 7 allPotentialLearnings [] []
        with ⟨extra, heq, _, _, hlen⟩
      simpa using hlen
  · intro hdocs l hl frag hfrag hfragne hrel
    unfold selectContextualLearningsForChallengePrompt
    have hguard : ¬ (docNames.length = 0 ∨ allPotentialLearnings.length = 0) := by
      rintro (h | h)
      · exact hdocs (List.length_eq_zero.mp h)
      · rw [List.length_eq_zero.mp h] at hl
        cases hl
    rcases selectLearningsGo_complete docNames 7 allPotentialLearnings [] []
        (by simp) l hl frag hfrag hfragne hrel with hfound | hcap
    · left
      split
      · next hguard2 => exact absurd (by simpa [List.length_eq_zero] using hguard2) hguard
      · exact hfound
    · right
      split
      · next hguard2 => exact absurd (by simpa [List.length_eq_zero] using hguard2) hguard
      · exact hcap

/-- Witness for `selectLearnings_characterization`: the completeness clause
applied at a concrete matching learning and non-empty target list. -/
theorem selectLearnings_characterization_witness :
    (∃ l' ∈ selectContextualLearningsForChallengePrompt [learningPolicyA] ["Policy A.pdf"] 7,
        ∃ f', findRegardingFragment l'.toList = some f' ∧
          strLower f' ++ coreLearningContent l'
            = strLower "Policy A.pdf" ++ coreLearningContent learningPolicyA) ∨
    7 ≤ (selectContextualLearningsForChallengePrompt
        [learningPolicyA] ["Policy A.pdf"] 7).length :=
  (selectLearnings_characterization [learningPolicyA] ["Policy A.pdf"]).2.2.2.1
    (by decide) learningPolicyA (by decide) "Policy A.pdf" (by decide) (by decide)
    ⟨"Policy A.pdf", by decide, by decide⟩

/-- **C4 counterexample**: the learning regarding `Policy` is relevant to
the target `Policy A.pdf` under the claim's relation (the fragment is a
substring of the document name), yet the source's selection — which only
tests whether the fragment contains the document name — excludes it. -/
theorem selectLearnings_substring_direction_fails :
    (∃ frag, findRegardingFragment learningPolicyFragment.toList = some frag ∧
      frag ≠ "" ∧ specLearningRelevantToDocs frag ["Policy A.pdf"] = true) ∧
    selectContextualLearningsForChallengePrompt
      [learningPolicyFragment] ["Policy A.pdf"] 7 = [] :=
  ⟨⟨"Policy", by decide, by decide, by decide⟩, by decide⟩

/-! ## C2: repair as identity on clean JSON -/

theorem parseJsonValue_backtick (fuel : Nat) (t : List Char) :
    parseJsonValue (fuel + 1) ('`' :: t) = none := by
  simp only [parseJsonValue]
  rw [if_neg (by decide), if_neg (by decide), if_neg (by decide), if_neg (by decide),
    if_neg (by decide), if_neg (by decide), if_neg (by decide)]

theorem jsonParse_of_backtick_head (s : String) (t : List Char)
    (ht : s.toList = '`' :: t) : jsonParse s = none := by
  have h1 : jsonParse s
      = (match parseJsonValue ((skipJsonWs s.toList).length + 1) (skipJsonWs s.toList) with
        | some (j, rest) => if (skipJsonWs rest).isEmpty = true then some j else none
        | none => none) := rfl
  rw [h1, ht]
  have hskip : skipJsonWs ('`' :: t) = '`' :: t := by
    unfold skipJsonWs
    rw [List.dropWhile_cons_of_neg (by decide)]
  rw [hskip, parseJsonValue_backtick]

theorem stripCodeFence_of_not_fenced (s : String)
    (h : ¬ (("```".toList).isPrefixOf s.toList = true)) :
    stripCodeFence s = s := by
  unfold stripCodeFence fenceInterior
  rw [if_neg h]

/-- **C2** (amended): the repair pipeline returns every well-formed JSON
text unchanged provided none of the three defect patterns occurs anywhere in
it — including inside its string literals. (The original claim, quantified
over all valid JSON, fails because the rewrite regexes also fire on defect
patterns occurring inside JSON string values; see the counterexample.) -/
theorem repair_identity_on_clean_json (s : String)
    (hjson : (jsonParse s).isSome = true)
    (h1 : hasBraceWordBrace s.toList = false)
    (h2 : hasBraceWordComma s.toList = false)
    (h3 : hasTimelinePriorityDefect s.toList = false) :
    repairJson s = s := by
  have hfence : stripCodeFence s = s := by
    apply stripCodeFence_of_not_fenced
    intro hpre
    rcases List.isPrefixOf_iff_prefix.mp hpre with ⟨t, ht⟩
    have hnone : jsonParse s = none :=
      jsonParse_of_backtick_head s ('`' :: '`' :: t) (by rw [← ht]; rfl)
    rw [hnone] at hjson
    cases hjson
  unfold repairJson
  rw [hfence]
  simp only [h1, h2, h3, Bool.false_eq_true, if_false]

/-- Witness for `repair_identity_on_clean_json` at a concrete clean JSON
object. -/
theorem repair_identity_on_clean_json_witness :
    repairJson "\x7b\"a\": 1\x7d" = "\x7b\"a\": 1\x7d" :=
  repair_identity_on_clean_json "\x7b\"a\": 1\x7d" (by decide) (by decide) (by decide) (by decide)

/-- **C2 counterexample**: a well-formed JSON object whose string value
contains `} b {` is rewritten by the repair pipeline — `repair(x) = x` does
not hold for all valid JSON. -/
theorem repair_not_identity_on_valid_json :
    (jsonParse "\x7b\"a\": \"\x7d b \x7b\"\x7d").isSome = true ∧
    repairJson "\x7b\"a\": \"\x7d b \x7b\"\x7d" ≠ "\x7b\"a\": \"\x7d b \x7b\"\x7d" :=
  ⟨by decide, by decide⟩

/-! ## C3: missing-priority-key repair -/

theorem matchPriorityWord_word {l : List Char} {w : String} {r : List Char}
    (h : matchPriorityWord l = some (w, r)) :
    w = "High" ∨ w = "Medium" ∨ w = "Low" := by
  unfold matchPriorityWord at h
  split_ifs at h <;> simp_all

theorem matchTimelineCont_word {l : List Char} {ws : List Char} {w : String}
    {r2 : List Char} (h : matchTimelineCont l = some (ws, w, r2)) :
    w = "High" ∨ w = "Medium" ∨ w = "Low" := by
  unfold matchTimelineCont at h
  split at h
  · simp only [] at h
    split at h
    · next w' r2' heq =>
      have hinj := Option.some.inj h
      have hw : w' = w := by
        have h1 := congrArg (fun x => x.2.1) hinj
        simpa using h1
      rw [← hw]
      exact matchPriorityWord_word heq
    · cases h
  · cases h

theorem timelineValueScan_word :
    ∀ {l : List Char} {m : TimelineMatch}, timelineValueScan l = some m →
    m.word = "High" ∨ m.word = "Medium" ∨ m.word = "Low" := by
  intro l
  induction l with
  | nil => intro m h; simp [timelineValueScan] at h
  | cons c rest ih =>
    intro m h
    unfold timelineValueScan at h
    by_cases hnl : c = '\n'
    · rw [if_pos hnl] at h
      cases h
    · rw [if_neg hnl] at h
      by_cases hq : c = '"'
      · rw [if_pos hq] at h
        split at h
        · next ws w r2 heq =>
          have hm := Option.some.inj h
          rw [← hm]
          exact matchTimelineCont_word heq
        · rcases Option.map_eq_some'.mp h with ⟨m', hm', hmap⟩
          have hword : m.word = m'.word := by rw [← hmap]
          rw [hword]
          exact ih hm'
      · rw [if_neg hq] at h
        rcases Option.map_eq_some'.mp h with ⟨m', hm', hmap⟩
        have hword : m.word = m'.word := by rw [← hmap]
        rw [hword]
        exact ih hm'

theorem matchTimelineAt_word {l : List Char} {m : TimelineMatch}
    (h : matchTimelineAt l = some m) :
    m.word = "High" ∨ m.word = "Medium" ∨ m.word = "Low" := by
  unfold matchTimelineAt at h
  split_ifs at h
  · simp only [] at h
    split at h
    · split at h
      · next m' heq =>
        have hm := Option.some.inj h
        have hword : m.word = m'.word := by rw [← hm]
        rw [hword]
        exact timelineValueScan_word heq
      · cases h
    · cases h

theorem insertPriorityKeyGo_decomp :
    ∀ (fuel : Nat) (l : List Char), l.length ≤ fuel →
    hasTimelinePriorityDefect l = true →
    ∃ pre m post, (m.word = "High" ∨ m.word = "Medium" ∨ m.word = "Low") ∧
      insertPriorityKeyGo fuel l = pre ++ timelineReplacement m ++ post := by
  intro fuel
  induction fuel with
  | zero =>
    intro l hlen hdef
    have : l = [] := List.length_eq_zero.mp (Nat.le_zero.mp hlen)
    rw [this] at hdef
    simp [hasTimelinePriorityDefect] at hdef
  | succ n ih =>
    intro l hlen hdef
    cases l with
    | nil => simp [hasTimelinePriorityDefect] at hdef
    | cons c rest =>
      cases hm : matchTimelineAt (c :: rest) with
      | some m =>
        refine ⟨[], m, insertPriorityKeyGo n m.rest, matchTimelineAt_word hm, ?_⟩
        have hred : insertPriorityKeyGo (n + 1) (c :: rest)
            = timelineReplacement m ++ insertPriorityKeyGo n m.rest := by
          simp only [insertPriorityKeyGo]
          rw [hm]
        rw [hred]
        simp
      | none =>
        have hdef' : hasTimelinePriorityDefect rest = true := by
          unfold hasTimelinePriorityDefect at hdef
          rw [hm] at hdef
          simpa using hdef
        have hlen' : rest.length ≤ n := by
          simp only [List.length_cons] at hlen
          omega
        rcases ih rest hlen' hdef' with ⟨pre, m, post, hw, heq⟩
        refine ⟨c :: pre, m, post, hw, ?_⟩
        have hred : insertPriorityKeyGo (n + 1) (c :: rest)
            = c :: insertPriorityKeyGo n rest := by
          simp only [insertPriorityKeyGo]
          rw [hm]
        rw [hred, heq]
        simp

/-- **C3** (amended): whenever a `"timeline": "..."` field is immediately
followed by a bare `"High"`, `"Medium"` or `"Low"` string literal, the
repair step inserts the omitted key so that the result contains
`"priority_level"` (the snake_case key the generator schema uses for the
spec's `priorityLevel` field) followed by the priority word immediately
after the timeline field; in particular the input
`"timeline": "Q1 2025", "High"` is repaired to
`"timeline": "Q1 2025", "priority_level": "High"`. -/
theorem repair_inserts_priority_level_key :
    (∀ l : List Char, hasTimelinePriorityDefect l = true →
      ∃ pre m post, (m.word = "High" ∨ m.word = "Medium" ∨ m.word = "Low") ∧
        insertPriorityKey l = pre ++ timelineReplacement m ++ post) ∧
    repairJson "\"timeline\": \"Q1 2025\", \"High\""
      = "\"timeline\": \"Q1 2025\", \"priority_level\": \"High\"" :=
  ⟨fun l hdef => insertPriorityKeyGo_decomp l.length l (Nat.le_refl _) hdef, by decide⟩

/-- Witness for `repair_inserts_priority_level_key`: the general clause
applied to a concrete defective action-plan fragment. -/
theorem repair_inserts_priority_level_key_witness :
    ∃ pre m post, (m.word = "High" ∨ m.word = "Medium" ∨ m.word = "Low") ∧
      insertPriorityKey ("\x7b\"timeline\": \"Q2\", \"Low\"\x7d".toList)
        = pre ++ timelineReplacement m ++ post :=
  repair_inserts_priority_level_key.1 ("\x7b\"timeline\": \"Q2\", \"Low\"\x7d".toList) (by decide)

/-- **C3 counterexample**: the repaired text spells the inserted key
`priority_level`, not `priorityLevel` — the claim's asserted substring
`"priorityLevel": "High"` does not occur in the repaired result for the
claim's own concrete input. -/
theorem repair_priorityLevel_spelling_differs :
    strIncludes (repairJson "\"timeline\": \"Q1 2025\", \"High\"")
        "\"priorityLevel\": \"High\"" = false ∧
    strIncludes (repairJson "\"timeline\": \"Q1 2025\", \"High\"")
        "\"priority_level\": \"High\"" = true :=
  ⟨by decide, by decide⟩

end ComplianceAdvisor

